import Mathlib

/-!
Shallow embedding of the solitaire solver (`src/solitaire.py`, `src/search.py`).

Cards are stored in the Python code as token strings such as `"r5"`, `"b"`,
`"f"`; we embed a token as its leading character (`kind`) together with its
optional decimal rank, and `cardStr` renders the token back.  State hashing in
the Python code feeds a canonical string into `hash`; we embed that canonical
string itself (as a `List Char`) and treat equal canonical strings as equal
hashes (the Python `hash` is a deterministic function of the string).
Python's `sorted` is modelled by `List.insertionSort` with the lexicographic
byte order on strings; any two correct sorts agree because the order is total,
transitive and antisymmetric.
-/

set_option maxRecDepth 4000

namespace Solitaire

/-- A card token: leading character and optional decimal rank
(`get_num` is `None` for one-character tokens). -/
structure Card where
  kind : Char
  rank : Option Nat
deriving DecidableEq

/-- `get_num(card) = int(card[1:]) if len(card) > 1 else None`. -/
def get_num (c : Card) : Option Nat := c.rank

/-- `get_type(card) = card[0]`. -/
def get_type (c : Card) : Char := c.kind

/-- The color-card token for a goal color, e.g. the bare `"r"`. -/
def colorCard (k : Char) : Card := ⟨k, none⟩

/-- The flower token `"f"`. -/
def flowerCard : Card := ⟨'f', none⟩

def digitChar (n : Nat) : Char := Char.ofNat (48 + n)

/-- Decimal digits of `n` (fuel-driven so that the kernel can evaluate it). -/
def natCharsGo : Nat → Nat → List Char
  | 0, _ => []
  | fuel+1, n => if n < 10 then [digitChar n] else natCharsGo fuel (n / 10) ++ [digitChar (n % 10)]

/-- Decimal representation of a natural number, as Python's `str`. -/
def natChars (n : Nat) : List Char := natCharsGo (n + 1) n

/-- The characters of a card token, e.g. `"r5"`. -/
def cardStr (c : Card) : List Char :=
  c.kind :: (match c.rank with
    | some n => natChars n
    | none => [])

/-- Lexicographic byte order on strings, as Python compares `str`. -/
def lexLe : List Char → List Char → Bool
  | [], _ => true
  | _ :: _, [] => false
  | a :: as, b :: bs => if a < b then true else if b < a then false else lexLe as bs

def lexLeP (a b : List Char) : Prop := lexLe a b = true

instance : DecidableRel lexLeP := fun a b => inferInstanceAs (Decidable (lexLe a b = true))

/-- Python `sorted` on a list of strings. -/
def sortStrs (L : List (List Char)) : List (List Char) := List.insertionSort lexLeP L

/-- Python `' '.join`. -/
def joinSpace : List (List Char) → List Char
  | [] => []
  | [x] => x
  | x :: y :: ys => x ++ ' ' :: joinSpace (y :: ys)

/-- Which of the two areas a position refers to (the `'deck'` / `'buffer'`
strings of the Python actions). -/
inductive Area where
  | deck
  | buffer
deriving DecidableEq

/-- Target of a `CollectAction`: one of the `GOALS` color characters, or
the `'flower'` string. -/
inductive CTarget where
  | color (k : Char)
  | flower
deriving DecidableEq

/-- The three action namedtuples.  `MoveAction` destinations in the buffer
carry `to_position = None`, hence the `Option Nat`; source positions are
always integers in the generated actions. -/
inductive Action where
  | move (card : Card) (source : Area) (source_position : Nat) (dst : Area) (to_position : Option Nat)
  | score (card : Card) (source : Area) (source_position : Nat)
  | collect (target : CTarget)
deriving DecidableEq

/-- A board position as used by the lock bookkeeping:
`(action.source, action.source_position)` / `(action.to, action.to_position)`. -/
abbrev Pos := Area × Option Nat

/-- `GameState.__slots__`, with the three goal slots and collected flags
spelled out (the Python dicts are keyed by the fixed list `['r','g','b']`
in insertion order).  `history` holds the canonical strings whose Python
hashes populate the `history` set, and the two lock dicts are association
lists. -/
structure GameState where
  buffer_area : List Card
  buffer_size : Nat
  goal_r : Nat
  goal_g : Nat
  goal_b : Nat
  collected_r : Bool
  collected_g : Bool
  collected_b : Bool
  deck : List (List Card)
  flower_in_deck : Bool
  solution : List Action
  history : List (List Char)
  locked_to_keys : List (Pos × List Pos)
  key_to_locked : List (Pos × Pos)
deriving DecidableEq

/-- `state.goal_buffer[k]` for `k` one of the goal colors. -/
def goalOf (s : GameState) (k : Char) : Option Nat :=
  if k = 'r' then some s.goal_r
  else if k = 'g' then some s.goal_g
  else if k = 'b' then some s.goal_b
  else none

/-- `state.goal_buffer[k] = v`. -/
def setGoal (s : GameState) (k : Char) (v : Nat) : GameState :=
  if k = 'r' then { s with goal_r := v }
  else if k = 'g' then { s with goal_g := v }
  else if k = 'b' then { s with goal_b := v }
  else s

/-- `state.collected[k]` for `k` one of the goal colors. -/
def collectedOf (s : GameState) (k : Char) : Bool :=
  if k = 'r' then s.collected_r
  else if k = 'g' then s.collected_g
  else if k = 'b' then s.collected_b
  else false

/-- `state.collected[k] = True`. -/
def setCollected (s : GameState) (k : Char) : GameState :=
  if k = 'r' then { s with collected_r := true }
  else if k = 'g' then { s with collected_g := true }
  else if k = 'b' then { s with collected_b := true }
  else s

/-- `''.join(l)` for one column of card tokens. -/
def colStr (col : List Card) : List Char := (col.map cardStr).flatten

/-- The canonical string fed to `hash` by `GameState.__hash__`:
`' '.join(sorted(''.join(l) for l in deck))` ++ `' '.join(sorted(buffer))`
++ `str(goal_buffer.values())` ++ `str(flower_in_deck)` (plain string
concatenation, no separators between the four parts). -/
def canonical (s : GameState) : List Char :=
  joinSpace (sortStrs (s.deck.map colStr))
  ++ joinSpace (sortStrs (s.buffer_area.map cardStr))
  ++ ("dict_values([".data ++ natChars s.goal_r ++ ", ".data ++ natChars s.goal_g
      ++ ", ".data ++ natChars s.goal_b ++ "])".data)
  ++ (if s.flower_in_deck then "True".data else "False".data)

/-- `GameState.__eq__`: `hash(self) == hash(other)`, with the Python string
hash idealised as injective on canonical strings. -/
def state_eq (s t : GameState) : Bool := canonical s == canonical t

/-- `Game.is_goal_state`. -/
def is_goal_state (s : GameState) : Bool :=
  s.goal_r == 9 && s.goal_g == 9 && s.goal_b == 9

/-- `column.pop()` (columns keep their top card last). -/
def popTop (col : List Card) : List Card := col.dropLast

/-- Removing the moved/scored card from its source
(`deck[i].pop()` / `buffer_area.pop(i)`). -/
def removeSource (s : GameState) (src : Area) (sp : Nat) : GameState :=
  match src with
  | .deck => { s with deck := List.modify popTop sp s.deck }
  | .buffer => { s with buffer_area := s.buffer_area.eraseIdx sp }

/-- Placing the moved card at its destination
(`deck[j].append(card)` / `buffer_area.append(card)`). -/
def addDest (s : GameState) (c : Card) (dst : Area) (tp : Option Nat) : GameState :=
  match dst, tp with
  | .deck, some j => { s with deck := List.modify (fun col => col ++ [c]) j s.deck }
  | .deck, none => s
  | .buffer, _ => { s with buffer_area := s.buffer_area ++ [c] }

/-- `CollectAction('flower')`: drop the flag and pop the first column whose
top card is the flower, if any. -/
def popFlower (deck : List (List Card)) : List (List Card) :=
  match deck.findIdx? (fun col => col.getLast? == some flowerCard) with
  | some i => List.modify popTop i deck
  | none => deck

/-- The state mutation performed by `Game.take_action` for each action kind
(lines 196-227), before hashing, locking and recording. -/
def applyAction (s : GameState) : Action → GameState
  | .move c src sp dst tp => addDest (removeSource s src sp) c dst tp
  | .score c src sp =>
      -- `goal_buffer[get_type(card)] = get_num(card)`; generated scores
      -- always carry a ranked card
      setGoal (removeSource s src sp) (get_type c) ((get_num c).getD 0)
  | .collect .flower =>
      { s with flower_in_deck := false, deck := popFlower s.deck }
  | .collect (.color k) =>
      setCollected
        { s with
          buffer_size := s.buffer_size - 1,
          buffer_area := s.buffer_area.filter (fun x => !(x == colorCard k)),
          deck := s.deck.map (fun col =>
            if col.getLast? == some (colorCard k) then popTop col else col) }
        k

/-- Dictionary deletion on an association list. -/
def alErase (k : Pos) (m : List (Pos × β)) : List (Pos × β) :=
  m.filter (fun p => !(p.1 == k))

/-- Dictionary assignment on an association list. -/
def alInsert (k : Pos) (v : β) (m : List (Pos × β)) : List (Pos × β) :=
  (k, v) :: alErase k m

/-- Dictionary lookup on an association list. -/
def alLookup (k : Pos) (m : List (Pos × β)) : Option β :=
  (m.find? (fun p => p.1 == k)).map (·.2)

/-- `Game._lock_state`: a relocation locks its destination position, with
the source and destination as the keys that can undo the lock. -/
def lock_state (s : GameState) (a : Action) : GameState :=
  match a with
  | .score _ _ _ => s
  | .collect _ => s
  | .move _ src sp dst tp =>
      let locked : Pos := (dst, tp)
      let keys : List Pos := [(src, some sp), locked]
      { s with
        locked_to_keys := alInsert locked keys s.locked_to_keys,
        key_to_locked := keys.foldl (fun m k => alInsert k locked m) s.key_to_locked }

/-- The inner `unlock(key)` of `Game._unlock_state`. -/
def unlockOne (s : GameState) (k : Pos) : GameState :=
  match alLookup k s.key_to_locked with
  | none => s
  | some locked =>
      { s with
        key_to_locked :=
          ((alLookup locked s.locked_to_keys).getD []).foldl
            (fun m l => alErase l m) s.key_to_locked,
        locked_to_keys := alErase locked s.locked_to_keys }

/-- `Game._unlock_state`. -/
def unlock_state (s : GameState) (a : Action) : GameState :=
  match a with
  | .move _ src sp dst tp => [((src, some sp) : Pos), (dst, tp)].foldl unlockOne s
  | .score _ src sp => [((src, some sp) : Pos)].foldl unlockOne s
  | .collect .flower => s
  | .collect (.color k) =>
      let keys : List Pos :=
        (s.buffer_area.enum.filterMap (fun p =>
          if p.2 == colorCard k then some ((Area.buffer, some p.1) : Pos) else none))
        ++ (s.deck.enum.filterMap (fun p =>
          if p.2.getLast? == some (colorCard k) then some ((Area.deck, some p.1) : Pos) else none))
      keys.foldl unlockOne s

/-- `Game._is_action_locked`. -/
def is_action_locked (s : GameState) : Action → Bool
  | .move _ src sp _ _ => (alLookup (src, some sp) s.locked_to_keys).isSome
  | .score _ _ _ => false
  | .collect _ => false

/-- `Game.take_action` with `auto_proceed=False`: reject locked actions,
apply the mutation, reject a canonical hash already in `history`, then
lock, unlock, record the new hash and append the action to `solution`
(in that order, as in lines 230-233). -/
def take_action_core (s : GameState) (a : Action) : Option GameState :=
  if is_action_locked s a then none
  else
    let ns := applyAction s a
    if canonical ns ∈ ns.history then none
    else
      let ns2 := unlock_state (lock_state ns a) a
      some { ns2 with
             history := canonical ns2 :: ns2.history,
             solution := ns2.solution ++ [a] }

/-- The target card `color + str(min_value+1)` of `auto_put_to_goal`
(`min` over the goal dict picks the first color with minimal value, in
insertion order `r, g, b`). -/
def minGoalTarget (s : GameState) : Card :=
  let pairs : List (Char × Nat) := [('g', s.goal_g), ('b', s.goal_b)]
  let best := pairs.foldl (fun b p => if p.2 < b.2 then p else b) ('r', s.goal_r)
  ⟨best.1, some (best.2 + 1)⟩

/-- `auto_put_to_goal`: `none` when the target card is on no column top
(the Python function falls through and returns `None`), otherwise the
result of scoring it from the first matching column (`some none` embeds
the `assert state` failure). -/
def auto_put_to_goal (s : GameState) : Option (Option GameState) :=
  let target := minGoalTarget s
  match s.deck.findIdx? (fun col => col.getLast? == some target) with
  | none => none
  | some i => some (take_action_core s (.score target .deck i))

/-- The `while True` loop of `Game.auto_proceed`, fuel-driven; `none`
covers both fuel exhaustion and an `assert state` failure. -/
def auto_loop : Nat → GameState → Option GameState
  | 0, _ => none
  | fuel+1, s =>
      match auto_put_to_goal s with
      | none => some s
      | some none => none
      | some (some t) => auto_loop fuel t

/-- `'f' in [c[-1] for c in state.deck if c]`. -/
def flowerTop (s : GameState) : Bool :=
  s.deck.any (fun col => col.getLast? == some flowerCard)

/-- `Game.auto_proceed`: collect the flower once if it is exposed, then
repeatedly score the target of the furthest-behind goal color. -/
def auto_proceed (fuel : Nat) (s : GameState) : Option GameState :=
  if s.flower_in_deck && flowerTop s then
    match take_action_core s (.collect .flower) with
    | none => none
    | some t => auto_loop fuel t
  else auto_loop fuel s

/-- `Game.take_action` with its `auto_proceed` flag. -/
def take_action (s : GameState) (a : Action) (auto : Bool) (fuel : Nat) : Option GameState :=
  match take_action_core s a with
  | none => none
  | some t => if auto then auto_proceed fuel t else some t

/-- The guard of `try_collect_all_collectables`:
`not collected[color] and (len(buffer_area) - buffer_size or color in buffer_area)
and sum(x[-1]==color for x in deck if x) + sum(x==color for x in buffer_area) == 4`. -/
def tryCollectCond (s : GameState) (k : Char) : Bool :=
  !(collectedOf s k)
  && (decide ((s.buffer_area.length : Int) - (s.buffer_size : Int) ≠ 0)
      || s.buffer_area.contains (colorCard k))
  && (s.deck.countP (fun col => col.getLast? == some (colorCard k))
      + s.buffer_area.count (colorCard k) == 4)

/-- `try_collect_all_collectables(color)` appends one candidate (possibly
`None`) when the guard holds. -/
def try_collect_all_collectables (s : GameState) (k : Char) (fuel : Nat) : List (Option GameState) :=
  if tryCollectCond s k then [take_action s (.collect (.color k)) true fuel] else []

/-- Guard that puts a `ScoreAction` for a visible card into the important
list: `get_num(card) and goal_buffer[get_type(card)] == get_num(card) - 1`. -/
def scoreCond (s : GameState) (c : Card) : Bool :=
  match get_num c with
  | none => false
  | some n => !(n == 0) && goalOf s (get_type c) == some (n - 1)

/-- Guard that generates a relocation of visible card `c` (at index `i` of
its area) onto deck column `j` with contents `col`:
`(not col) or (get_num(card) and j != i and get_type(col[-1]) != get_type(card)
and get_num(col[-1]) == get_num(card) + 1)`. -/
def moveCond (c : Card) (i j : Nat) (col : List Card) : Bool :=
  col.isEmpty
  || (match get_num c with
      | none => false
      | some n =>
          !(n == 0) && !(j == i)
          && (match col.getLast? with
              | none => false
              | some top => !(get_type top == get_type c) && get_num top == some (n + 1)))

/-- `list(set(...))` on successor states: drop `None`s, then collapse
states with equal canonical hashes (keeping one representative). -/
def dedupCanon (l : List GameState) : List GameState :=
  l.foldl (fun acc x =>
    if acc.any (fun y => canonical y == canonical x) then acc else acc ++ [x]) []

/-- `Game.get_successors`: the important candidates (`Score`/`Collect`
results, possibly `None`, in generation order) and the de-duplicated,
`None`-filtered relocation results.  Callers only invoke it on non-goal
states (both drivers test the goal before expanding). -/
def get_successors (s : GameState) (fuel : Nat) : List (Option GameState) × List GameState :=
  if is_goal_state s then ([], [])
  else
    let dcols := s.deck.enum
    let collects :=
      ((['r', 'g', 'b'].map (fun k => try_collect_all_collectables s k fuel)).flatten)
    let deckScores :=
      (dcols.map (fun p =>
        match p.2.getLast? with
        | none => []
        | some card =>
            if scoreCond s card then [take_action s (.score card .deck p.1) true fuel] else [])).flatten
    let deckMoves :=
      (dcols.map (fun p =>
        match p.2.getLast? with
        | none => []
        | some card =>
            (dcols.filterMap (fun q =>
              if moveCond card p.1 q.1 q.2 then
                some (take_action s (.move card .deck p.1 .deck q.1) true fuel)
              else none))
            ++ (if s.buffer_area.length < s.buffer_size then
                  [take_action s (.move card .deck p.1 .buffer none) true fuel]
                else []))).flatten
    let bufScores :=
      (s.buffer_area.enum.map (fun p =>
        if scoreCond s p.2 then [take_action s (.score p.2 .buffer p.1) true fuel] else [])).flatten
    let bufMoves :=
      (s.buffer_area.enum.map (fun p =>
        dcols.filterMap (fun q =>
          if moveCond p.2 p.1 q.1 q.2 then
            some (take_action s (.move p.2 .buffer p.1 .deck q.1) true fuel)
          else none))).flatten
    (collects ++ deckScores ++ bufScores,
     dedupCanon ((deckMoves ++ bufMoves).filterMap id))

/-- Result of a search driver run. -/
inductive SearchOutcome where
  | foundSol (sol : List Action)
  | noSolution
  | crashed
  | outOfFuel
deriving DecidableEq

/-- Membership in the drivers' `met` set (`GameState.__eq__` compares
canonical hashes; `None` equals only `None`). -/
def memS (x : Option GameState) (met : List (Option GameState)) : Bool :=
  met.any (fun y =>
    match x, y with
    | none, none => true
    | some a, some b => canonical a == canonical b
    | _, _ => false)

/-- The dfs push loop `for s in important_states + other_states: if s not in
met: dp.append(s); met.add(s)` — returns the appended entries and the new
`met`. -/
def pushSel (met : List (Option GameState)) (xs : List (Option GameState)) :
    List (Option GameState) × List (Option GameState) :=
  xs.foldl (fun acc x =>
    (if memS x acc.2 then acc.1 else acc.1 ++ [x], x :: acc.2)) ([], met)

/-- `search.dfs`, fuel-driven, also returning the popped-state trace.
`dp.pop()` takes the last (most recently appended) entry; popping a `None`
crashes (`is_goal_state(None)` raises in Python). -/
def dfs_run : Nat → List (Option GameState) → List (Option GameState) → Nat →
    SearchOutcome × List (Option GameState)
  | 0, _, _, _ => (.outOfFuel, [])
  | fuel+1, dp, met, sfuel =>
      match dp.getLast? with
      | none => (.noSolution, [])
      | some none => (.crashed, [none])
      | some (some st) =>
          if is_goal_state st then (.foundSol st.solution, [some st])
          else
            let succ := get_successors st sfuel
            let sel := pushSel met (succ.1 ++ succ.2.map some)
            let r := dfs_run fuel (dp.dropLast ++ sel.1) sel.2 sfuel
            (r.1, some st :: r.2)

/-- The heuristic `dig_out_distance`, scaled by 20 so that every value is
an integer: `average_step = (100 - 7) / (27 - 7) = 93/20`, and all other
contributions are integers, so the Python float arithmetic is exact on
these values and scaling by 20 preserves every comparison.  `none` embeds
the `ValueError` of `min([])` when no target card lies in any column. -/
def heur20 (s : GameState) : Option Int :=
  let complete : Int := (s.goal_r : Int) + s.goal_g + s.goal_b
  let padding20 : Int := if complete > 27 - 7 then 20 * (27 - complete) else complete * 93
  let targets : List Card :=
    [⟨'r', some (s.goal_r + 1)⟩, ⟨'g', some (s.goal_g + 1)⟩, ⟨'b', some (s.goal_b + 1)⟩]
  let digs : List Nat :=
    (s.deck.map (fun column =>
      column.filterMap (fun card =>
        if targets.contains card then
          some (column.length - List.indexOf card column - 1)
        else none))).flatten
    ++ ([(⟨'r', none⟩ : Card), ⟨'g', none⟩, ⟨'b', none⟩].filterMap (fun c =>
        if targets.contains c then some 0 else none))
  match digs.min? with
  | none => none
  | some d => some (20 * (d : Int) + padding20)

/-- Strictly smaller priority-queue key `(f, g)` (heap entries with equal
`(f, g)` never occur in the runs analysed here, so tie-breaking by state
comparison is not needed). -/
def entLt (a b : Int × Nat) : Bool := a.1 < b.1 || (a.1 == b.1 && decide (a.2 < b.2))

/-- Select the `(f, g)`-minimal entry of a nonempty frontier (what
`heapq.heappop` removes), keeping the remaining entries. -/
def popMinGo : (Int × Nat × GameState) → List (Int × Nat × GameState) →
    (Int × Nat × GameState) × List (Int × Nat × GameState)
  | x, [] => (x, [])
  | x, y :: ys =>
      if entLt (y.1, y.2.1) (x.1, x.2.1) then
        let r := popMinGo y ys
        (r.1, x :: r.2)
      else
        let r := popMinGo x ys
        (r.1, y :: r.2)

/-- `heapq.heappop` on the frontier. -/
def popMin : List (Int × Nat × GameState) →
    Option ((Int × Nat × GameState) × List (Int × Nat × GameState))
  | [] => none
  | x :: xs => some (popMinGo x xs)

/-- The push loop of `a_star_solver`: `for s in states: if s not in met:
heappush(dp, (cost+1+heuristic(s), cost+1, s)); met.add(s)`.  A `None`
among the states, or a heuristic `ValueError`, crashes (`none`). -/
def a_star_push (g : Nat) : List (Option GameState) → List (Int × Nat × GameState) →
    List GameState → Option (List (Int × Nat × GameState) × List GameState)
  | [], dp, met => some (dp, met)
  | none :: _, _, _ => none
  | some st :: rest, dp, met =>
      if met.any (fun y => canonical y == canonical st) then
        a_star_push g rest dp (st :: met)
      else
        match heur20 st with
        | none => none
        | some h => a_star_push g rest (dp ++ [(20 * ((g : Int) + 1) + h, g + 1, st)]) (st :: met)

/-- `search.a_star_solver`'s main loop.  The depth test is Python's
`if max_depth and cost > max_depth: return` — with `max_depth = 0` the
first conjunct is falsy and the cutoff is disabled.  `sampler` stands for
`random.sample`; the fan-out rule only invokes it when
`len(important) ≤ 3 ≤ len(important) + len(other)`. -/
def a_star_loop (sampler : List GameState → Nat → List GameState) :
    Nat → Nat → List (Int × Nat × GameState) → List GameState → Nat → SearchOutcome
  | 0, _, _, _, _ => .outOfFuel
  | fuel+1, maxDepth, dp, met, sfuel =>
      match popMin dp with
      | none => .noSolution
      | some ((_, g, st), rest) =>
          if maxDepth ≠ 0 ∧ g > maxDepth then .noSolution
          else if is_goal_state st then .foundSol st.solution
          else
            let succ := get_successors st sfuel
            let imp := succ.1
            let states :=
              if imp.length > 3 then imp
              else if imp.length + succ.2.length < 3 then imp ++ succ.2.map some
              else imp ++ (sampler succ.2 (3 - imp.length)).map some
            match a_star_push g states rest met with
            | none => .crashed
            | some (dp2, met2) => a_star_loop sampler fuel maxDepth dp2 met2 sfuel

/-- `search.a_star_solver`: frontier seeded with `(initial_h, 0, start)`
where `initial_h = 100` (scaled: `2000`). -/
def a_star_solver (s0 : GameState) (maxDepth : Nat)
    (sampler : List GameState → Nat → List GameState) (fuel sfuel : Nat) : SearchOutcome :=
  a_star_loop sampler fuel maxDepth [(2000, 0, s0)] [] sfuel

/-- Number of copies of card `x` across the buffer and all columns. -/
def countOf (s : GameState) (x : Card) : Nat :=
  s.buffer_area.count x + (s.deck.map (List.count x)).sum

/-- Total number of cards across the buffer and all columns. -/
def cardCountTotal (s : GameState) : Nat :=
  s.buffer_area.length + (s.deck.map List.length).sum

/-- The card currently movable from a position (top of a column, or the
buffer slot itself). -/
def sourceTop (s : GameState) (src : Area) (sp : Nat) : Option Card :=
  match src with
  | .deck => (s.deck.getD sp []).getLast?
  | .buffer => s.buffer_area[sp]?

/-- Where the relocation `.move c src sp dst tp` leaves the moved card:
the destination column index, or (for a buffer destination) the appended
end of the buffer. -/
def invSrcPos (s : GameState) (c : Card) (src : Area) (sp : Nat)
    (dst : Area) (tp : Option Nat) : Nat :=
  match dst, tp with
  | .deck, some j => j
  | _, _ => (applyAction s (.move c src sp dst tp)).buffer_area.length - 1

/-- The destination position that sends a card back to its original source
area (buffer destinations carry `None`). -/
def invDstPos (src : Area) (sp : Nat) : Option Nat :=
  match src with
  | .deck => some sp
  | .buffer => none

/-- The hand-constructed inverse of the relocation `.move c src sp dst tp`
applied to `s`: it moves `c` back from where the relocation put it (the
appended end of the destination) to the original source area. -/
def inverseMove (s : GameState) (c : Card) (src : Area) (sp : Nat)
    (dst : Area) (tp : Option Nat) : Action :=
  .move c dst (invSrcPos s c src sp dst tp) src (invDstPos src sp)

/-- `Game._get_start_state`: `zip(state.deck, lines)` pairs the 8 empty
columns with the deal's lines (missing lines leave trailing columns empty,
extra lines are dropped), then the initial hash is recorded. -/
def load_state (cols : List (List Card)) : GameState :=
  let s : GameState :=
    { buffer_area := [], buffer_size := 3, goal_r := 0, goal_g := 0, goal_b := 0,
      collected_r := false, collected_g := false, collected_b := false,
      deck := (List.range 8).map (fun i => cols.getD i []),
      flower_in_deck := true, solution := [], history := [],
      locked_to_keys := [], key_to_locked := [] }
  { s with history := [canonical s] }

/-!
A decreasing measure on canonical strings.  `muC` weighs each alphabetic
character twice and each `'T'` once more.  Every well-formed card token
contributes exactly 2 (one letter, digits weigh nothing), the goal segment
`dict_values([...])` always contributes 20, and the flower flag contributes
9 (`True`) or 10 (`False`).  Scoring a card removes a token (-2), collecting
a color removes four tokens (-8), and collecting the flower trades a token
for the flag flip (-1), while relocations leave the measure unchanged —
so states recorded earlier in a run always carry a strictly larger measure
than any state reached by a further `Score`/`Collect`. -/

/-- The measure on canonical strings. -/
def muC (l : List Char) : Nat :=
  2 * l.countP (fun c => c.isAlpha) + l.countP (fun c => c == 'T')

/-- Measure contribution of one card token. -/
def cardMu (c : Card) : Nat := muC (cardStr c)

/-- Measure contribution of one column's tokens. -/
def colMu (col : List Card) : Nat := (col.map (fun c => muC (cardStr c))).sum

/-- Measure contribution of all columns. -/
def deckMu (s : GameState) : Nat := (s.deck.map colMu).sum

/-- Measure contribution of the buffer. -/
def bufMu (s : GameState) : Nat := (s.buffer_area.map (fun c => muC (cardStr c))).sum

/-- A card token whose measure behaves like the standard tokens: the kind
is a letter other than `'T'` (all tokens of a real deal satisfy this). -/
def wfCardB (c : Card) : Bool := c.kind.isAlpha && !(c.kind == 'T')

/-- All cards in play are well-formed. -/
def allWF (s : GameState) : Bool :=
  s.buffer_area.all wfCardB && s.deck.all (fun col => col.all wfCardB)

/-- Every recorded hash has measure at least the current state's measure
(true along any run: the measure never increases backwards in time). -/
def invB (s : GameState) : Bool :=
  s.history.all (fun h => muC (canonical s) ≤ muC h)

/-- The invariant carried by every state of a search run started from a
freshly loaded deal. -/
def GoodState (s : GameState) : Prop := allWF s = true ∧ invB s = true

/-- An empty board with the initial bookkeeping fields. -/
def emptyBoard : GameState :=
  { buffer_area := [], buffer_size := 3, goal_r := 0, goal_g := 0, goal_b := 0,
    collected_r := false, collected_g := false, collected_b := false,
    deck := [[], [], [], [], [], [], [], []], flower_in_deck := true,
    solution := [], history := [], locked_to_keys := [], key_to_locked := [] }

/-- Concrete scenario for the cascade claims: column 0 is `[f, r1]`
(scoring `r1` exposes the flower). -/
def cascadeStatePre : GameState :=
  { emptyBoard with
    deck := [[⟨'f', none⟩, ⟨'r', some 1⟩], [], [], [], [], [], [], []] }

def cascadeState : GameState :=
  { cascadeStatePre with history := [canonical cascadeStatePre] }

/-- Concrete scenario for the search-order claims: goals `(9, 9, 8)`, all
colors collected, `b9` on column 0 and `[r10, r, r]` on column 1 — the one
important successor scores `b9`, the one other successor relocates the top
`r` and auto-scores into a goal state. -/
def searchStatePre : GameState :=
  { emptyBoard with
    buffer_size := 0, goal_r := 9, goal_g := 9, goal_b := 8,
    collected_r := true, collected_g := true, collected_b := true,
    deck := [[⟨'b', some 9⟩], [⟨'r', some 10⟩, ⟨'r', none⟩, ⟨'r', none⟩],
             [], [], [], [], [], []],
    flower_in_deck := false }

def searchState : GameState :=
  { searchStatePre with history := [canonical searchStatePre] }

/-- Concrete scenario for the collect-guard claim: all four `b` color cards
are exposed on column tops, but the buffer is full of unscorable `r` cards
and holds no `b`. -/
def collectStatePre : GameState :=
  { emptyBoard with
    buffer_area := [⟨'r', some 5⟩, ⟨'r', some 6⟩, ⟨'r', some 7⟩],
    deck := [[⟨'b', none⟩], [⟨'b', none⟩], [⟨'b', none⟩], [⟨'b', none⟩],
             [], [], [], []],
    flower_in_deck := false }

def collectState : GameState :=
  { collectStatePre with history := [canonical collectStatePre] }

/-- Concrete scenario for the relocation-legality claim: buffer slot 0
holds `r2`, column 0 tops `b3` and column 1 tops `g3` — both columns are
equally legal destinations for `r2`, but the generator skips column 0
because its index equals the buffer index. -/
def bufMoveStatePre : GameState :=
  { emptyBoard with
    buffer_area := [⟨'r', some 2⟩, ⟨'r', some 9⟩],
    deck := [[⟨'b', some 3⟩], [⟨'g', some 3⟩], [], [], [], [], [], []],
    flower_in_deck := false }

def bufMoveState : GameState :=
  { bufMoveStatePre with history := [canonical bufMoveStatePre] }

/-- A full 40-card deal (27 rank cards, 12 color cards, the flower). -/
def fullDeal : List (List Card) :=
  [[⟨'r', some 1⟩, ⟨'r', some 2⟩, ⟨'r', some 3⟩, ⟨'r', some 4⟩, ⟨'r', some 5⟩],
   [⟨'r', some 6⟩, ⟨'r', some 7⟩, ⟨'r', some 8⟩, ⟨'r', some 9⟩, ⟨'g', some 1⟩],
   [⟨'g', some 2⟩, ⟨'g', some 3⟩, ⟨'g', some 4⟩, ⟨'g', some 5⟩, ⟨'g', some 6⟩],
   [⟨'g', some 7⟩, ⟨'g', some 8⟩, ⟨'g', some 9⟩, ⟨'b', some 1⟩, ⟨'b', some 2⟩],
   [⟨'b', some 3⟩, ⟨'b', some 4⟩, ⟨'b', some 5⟩, ⟨'b', some 6⟩, ⟨'b', some 7⟩],
   [⟨'b', some 8⟩, ⟨'b', some 9⟩, ⟨'f', none⟩, ⟨'r', none⟩, ⟨'r', none⟩],
   [⟨'r', none⟩, ⟨'r', none⟩, ⟨'g', none⟩, ⟨'g', none⟩, ⟨'g', none⟩],
   [⟨'g', none⟩, ⟨'b', none⟩, ⟨'b', none⟩, ⟨'b', none⟩, ⟨'b', none⟩]]

/-- The loaded full deal (`g1` is exposed on column 1 and scorable). -/
def fullState : GameState := load_state fullDeal

/-- Pair observed by the card-count counterexample. -/
def countAndFlower (t : GameState) : Nat × Bool := (cardCountTotal t, t.flower_in_deck)


/-!  ## Theorems  -/

theorem lexLe_total : ∀ a b : List Char, lexLe a b = true ∨ lexLe b a = true := by
  intro a
  induction a with
  | nil => intro b; left; rfl
  | cons x xs ih =>
    intro b
    cases b with
    | nil => right; rfl
    | cons y ys =>
      by_cases hxy : x < y
      · left; simp [lexLe, hxy]
      · by_cases hyx : y < x
        · right; simp [lexLe, hyx, hxy]
        · rcases ih ys with h | h
          · left; simp [lexLe, hxy, hyx, h]
          · right; simp [lexLe, hxy, hyx, h]

theorem lexLe_antisymm : ∀ a b : List Char, lexLe a b = true → lexLe b a = true → a = b := by
  intro a
  induction a with
  | nil =>
    intro b _ hba
    cases b with
    | nil => rfl
    | cons y ys => simp [lexLe] at hba
  | cons x xs ih =>
    intro b hab hba
    cases b with
    | nil => simp [lexLe] at hab
    | cons y ys =>
      by_cases hxy : x < y
      · simp [lexLe, hxy, lt_asymm hxy] at hba
      · by_cases hyx : y < x
        · simp [lexLe, hxy, hyx] at hab
        · have hx : x = y := le_antisymm (not_lt.mp hyx) (not_lt.mp hxy)
          subst hx
          simp only [lexLe, lt_irrefl, if_neg (lt_irrefl x)] at hab hba
          simp [ih ys hab hba]

theorem lexLe_trans : ∀ a b c : List Char, lexLe a b = true → lexLe b c = true → lexLe a c = true := by
  intro a
  induction a with
  | nil => intro b c _ _; rfl
  | cons x xs ih =>
    intro b c hab hbc
    cases b with
    | nil => simp [lexLe] at hab
    | cons y ys =>
      cases c with
      | nil => simp [lexLe] at hbc
      | cons z zs =>
        simp only [lexLe] at hab hbc ⊢
        by_cases hxy : x < y
        · by_cases hyz : y < z
          · simp [lt_trans hxy hyz]
          · by_cases hzy : z < y
            · simp [lexLe, hyz, hzy] at hbc
            · have : y = z := le_antisymm (not_lt.mp hzy) (not_lt.mp hyz)
              subst this
              simp [hxy]
        · by_cases hyx : y < x
          · simp [hxy, hyx] at hab
          · have hx : x = y := le_antisymm (not_lt.mp hyx) (not_lt.mp hxy)
            subst hx
            simp only [lt_irrefl, if_neg (lt_irrefl x)] at hab
            by_cases hxz : x < z
            · simp [hxz]
            · by_cases hzx : z < x
              · simp [hxz, hzx] at hbc
              · have : x = z := le_antisymm (not_lt.mp hzx) (not_lt.mp hxz)
                subst this
                simp only [lt_irrefl, if_neg (lt_irrefl x)] at hbc ⊢
                exact ih ys zs hab hbc

instance : IsTotal (List Char) lexLeP := ⟨lexLe_total⟩

instance : IsTrans (List Char) lexLeP := ⟨fun a b c => lexLe_trans a b c⟩

instance : IsAntisymm (List Char) lexLeP := ⟨lexLe_antisymm⟩


/-- Sorting is determined by the multiset of elements (Python's `sorted`
agrees with any correct sort of the same strings). -/
theorem sortStrs_perm_eq {L₁ L₂ : List (List Char)} (h : L₁.Perm L₂) :
    sortStrs L₁ = sortStrs L₂ := by
  apply List.eq_of_perm_of_sorted (r := lexLeP)
  · exact ((List.perm_insertionSort lexLeP L₁).trans h).trans
      (List.perm_insertionSort lexLeP L₂).symm
  · exact List.sorted_insertionSort lexLeP L₁
  · exact List.sorted_insertionSort lexLeP L₂

/-! ### The lock bookkeeping only ever touches the two lock maps -/

theorem unlockOne_spec (s : GameState) (k : Pos) :
    ∃ a b, unlockOne s k = { s with key_to_locked := a, locked_to_keys := b } := by
  unfold unlockOne
  cases alLookup k s.key_to_locked with
  | none => exact ⟨s.key_to_locked, s.locked_to_keys, rfl⟩
  | some locked => exact ⟨_, _, rfl⟩

theorem foldl_unlockOne_spec (keys : List Pos) (s : GameState) :
    ∃ a b, keys.foldl unlockOne s = { s with key_to_locked := a, locked_to_keys := b } := by
  induction keys generalizing s with
  | nil => exact ⟨s.key_to_locked, s.locked_to_keys, rfl⟩
  | cons k ks ih =>
    obtain ⟨a, b, h1⟩ := unlockOne_spec s k
    obtain ⟨a2, b2, h2⟩ := ih (unlockOne s k)
    rw [List.foldl_cons, h2, h1]
    exact ⟨a2, b2, rfl⟩

theorem unlock_state_spec (s : GameState) (a : Action) :
    ∃ x y, unlock_state s a = { s with key_to_locked := x, locked_to_keys := y } := by
  cases a with
  | move c src sp dst tp => exact foldl_unlockOne_spec _ s
  | score c src sp => exact foldl_unlockOne_spec _ s
  | collect tgt =>
    cases tgt with
    | color k => exact foldl_unlockOne_spec _ s
    | flower => exact ⟨s.key_to_locked, s.locked_to_keys, rfl⟩

theorem lock_state_spec (s : GameState) (a : Action) :
    ∃ x y, lock_state s a = { s with key_to_locked := x, locked_to_keys := y } := by
  cases a with
  | move c src sp dst tp => exact ⟨_, _, rfl⟩
  | score c src sp => exact ⟨s.key_to_locked, s.locked_to_keys, rfl⟩
  | collect tgt => exact ⟨s.key_to_locked, s.locked_to_keys, rfl⟩

/-- The locking pass between mutation and recording never changes the
canonical string, the history or the solution. -/
theorem post_lock_fields (s : GameState) (a : Action) :
    canonical (unlock_state (lock_state s a) a) = canonical s
    ∧ (unlock_state (lock_state s a) a).history = s.history
    ∧ (unlock_state (lock_state s a) a).solution = s.solution := by
  obtain ⟨x, y, h1⟩ := lock_state_spec s a
  obtain ⟨x2, y2, h2⟩ := unlock_state_spec (lock_state s a) a
  rw [h2, h1]
  exact ⟨rfl, rfl, rfl⟩

/-- The mutation pass never touches history, solution or the lock maps. -/
theorem applyAction_carry (s : GameState) (a : Action) :
    (applyAction s a).history = s.history
    ∧ (applyAction s a).solution = s.solution
    ∧ (applyAction s a).locked_to_keys = s.locked_to_keys
    ∧ (applyAction s a).key_to_locked = s.key_to_locked := by
  have hrem : ∀ src sp, (removeSource s src sp).history = s.history
      ∧ (removeSource s src sp).solution = s.solution
      ∧ (removeSource s src sp).locked_to_keys = s.locked_to_keys
      ∧ (removeSource s src sp).key_to_locked = s.key_to_locked := by
    intro src sp; cases src <;> exact ⟨rfl, rfl, rfl, rfl⟩
  cases a with
  | move c src sp dst tp =>
    obtain ⟨e1, e2, e3, e4⟩ := hrem src sp
    simp only [applyAction]
    cases dst with
    | deck =>
      cases tp with
      | some j => simp only [addDest]; exact ⟨e1, e2, e3, e4⟩
      | none => simp only [addDest]; exact ⟨e1, e2, e3, e4⟩
    | buffer => simp only [addDest]; exact ⟨e1, e2, e3, e4⟩
  | score c src sp =>
    obtain ⟨e1, e2, e3, e4⟩ := hrem src sp
    simp only [applyAction, setGoal]
    split_ifs <;> exact ⟨e1, e2, e3, e4⟩
  | collect tgt =>
    cases tgt with
    | flower => exact ⟨rfl, rfl, rfl, rfl⟩
    | color k =>
      simp only [applyAction, setCollected]
      split_ifs <;> exact ⟨rfl, rfl, rfl, rfl⟩

/-- `unlockOne` is the identity on a state with an empty `key_to_locked`. -/
theorem unlockOne_empty (s : GameState) (k : Pos) (h : s.key_to_locked = []) :
    unlockOne s k = s := by
  unfold unlockOne
  rw [h]
  rfl

theorem foldl_unlockOne_empty (keys : List Pos) (s : GameState)
    (h : s.key_to_locked = []) : keys.foldl unlockOne s = s := by
  induction keys with
  | nil => rfl
  | cons k ks ih => rw [List.foldl_cons, unlockOne_empty s k h, ih]

/-- Locking a relocation's destination and then unlocking with the same
action's keys erases the lock just created. -/
theorem lockUnlockPair (ns : GameState) (P Q : Pos)
    (hl : ns.locked_to_keys = []) (hk : ns.key_to_locked = []) :
    (unlockOne (unlockOne
        { ns with
          locked_to_keys := alInsert Q [P, Q] ns.locked_to_keys,
          key_to_locked := [P, Q].foldl (fun m k => alInsert k Q m) ns.key_to_locked } P) Q).locked_to_keys = []
    ∧ (unlockOne (unlockOne
        { ns with
          locked_to_keys := alInsert Q [P, Q] ns.locked_to_keys,
          key_to_locked := [P, Q].foldl (fun m k => alInsert k Q m) ns.key_to_locked } P) Q).key_to_locked = [] := by
  rw [hl, hk]
  by_cases hPQ : P = Q
  · subst hPQ
    simp [alInsert, alErase, alLookup, unlockOne, List.filter, List.find?]
  · have hb : (P == Q) = false := by simp [hPQ]
    have hb2 : (Q == P) = false := by simp [Ne.symm hPQ]
    simp [alInsert, alErase, alLookup, unlockOne, List.filter, List.find?, hb, hb2]

/-- C1: `take_action` runs `_lock_state` and then immediately `_unlock_state`
with the same action, and the unlock keys of a relocation are exactly the
keys of the lock it just created — so the created lock is deleted on the
spot.  Starting from empty lock maps (as every loaded deal does), every
successor again has empty lock maps: no position is ever locked, and
`_is_action_locked` never rejects a move. -/
theorem lock_maps_stay_empty (s : GameState) (a : Action) (t : GameState)
    (h1 : s.locked_to_keys = []) (h2 : s.key_to_locked = [])
    (h : take_action_core s a = some t) :
    t.locked_to_keys = [] ∧ t.key_to_locked = [] := by
  have hlock : is_action_locked s a = false := by
    cases a <;> simp [is_action_locked, alLookup, h1]
  unfold take_action_core at h
  rw [hlock] at h
  simp only [Bool.false_eq_true, if_false] at h
  obtain ⟨e1, e2, e3, e4⟩ := applyAction_carry s a
  by_cases hmem : canonical (applyAction s a) ∈ (applyAction s a).history
  · rw [if_pos hmem] at h
    exact absurd h (by simp)
  · rw [if_neg hmem] at h
    have hnsl : (applyAction s a).locked_to_keys = [] := e3.trans h1
    have hnsk : (applyAction s a).key_to_locked = [] := e4.trans h2
    set ns := applyAction s a with hns
    have hmain : (unlock_state (lock_state ns a) a).locked_to_keys = []
        ∧ (unlock_state (lock_state ns a) a).key_to_locked = [] := by
      cases a with
      | score c src sp =>
        have hls : lock_state ns (.score c src sp) = ns := rfl
        have hus : unlock_state ns (.score c src sp)
            = [((src, some sp) : Pos)].foldl unlockOne ns := rfl
        rw [hls, hus, foldl_unlockOne_empty _ _ hnsk]
        exact ⟨hnsl, hnsk⟩
      | collect tgt =>
        cases tgt with
        | flower => exact ⟨hnsl, hnsk⟩
        | color k =>
          have hls : lock_state ns (.collect (.color k)) = ns := rfl
          have hus : unlock_state ns (.collect (.color k)) = ns := by
            show (_ : List Pos).foldl unlockOne ns = ns
            exact foldl_unlockOne_empty _ _ hnsk
          rw [hls, hus]
          exact ⟨hnsl, hnsk⟩
      | move c src sp dst tp =>
        exact lockUnlockPair ns (src, some sp) (dst, tp) hnsl hnsk
    constructor
    · rw [← Option.some.inj h]
      exact hmain.1
    · rw [← Option.some.inj h]
      exact hmain.2

/-- C1 witness: a concrete relocation applied to a lock-free state leaves
both lock maps empty. -/
theorem lock_maps_stay_empty_witness :
    ((take_action_core bufMoveState (.move ⟨'r', some 9⟩ .buffer 1 .deck (some 2))).getD
        emptyBoard).locked_to_keys = []
    ∧ ((take_action_core bufMoveState (.move ⟨'r', some 9⟩ .buffer 1 .deck (some 2))).getD
        emptyBoard).key_to_locked = [] :=
  lock_maps_stay_empty bufMoveState (.move ⟨'r', some 9⟩ .buffer 1 .deck (some 2)) _
    (by decide) (by decide) (by decide)

/-- C5 counterexample: all four `b` color cards are visible and `b` is not
collected, but the buffer is exactly full and holds no `b`, so no
`Collect` (indeed no important move at all) is generated. -/
theorem collect_not_generated_when_buffer_full_cex :
    collectedOf collectState 'b' = false
    ∧ collectState.deck.countP (fun col => col.getLast? == some (colorCard 'b'))
        + collectState.buffer_area.count (colorCard 'b') = 4
    ∧ (get_successors collectState 100).1 = [] := by
  refine ⟨by decide, by decide, by decide⟩

/-- C5 amended: a `Collect{color}` candidate is generated iff the color is
not collected, *the buffer count differs from the capacity or the color is
already buffered*, and exactly 4 instances are visible. -/
theorem collect_generated_iff (s : GameState) (k : Char) (fuel : Nat) :
    try_collect_all_collectables s k fuel ≠ [] ↔
      (collectedOf s k = false
       ∧ ((s.buffer_area.length : Int) - (s.buffer_size : Int) ≠ 0 ∨ colorCard k ∈ s.buffer_area)
       ∧ s.deck.countP (fun col => col.getLast? == some (colorCard k))
           + s.buffer_area.count (colorCard k) = 4) := by
  have hiff : tryCollectCond s k = true ↔
      (collectedOf s k = false
       ∧ ((s.buffer_area.length : Int) - (s.buffer_size : Int) ≠ 0 ∨ colorCard k ∈ s.buffer_area)
       ∧ s.deck.countP (fun col => col.getLast? == some (colorCard k))
           + s.buffer_area.count (colorCard k) = 4) := by
    unfold tryCollectCond
    simp [Bool.and_eq_true, Bool.not_eq_true', decide_eq_true_eq, List.elem_iff,
      and_assoc]
  unfold try_collect_all_collectables
  split_ifs with hcond
  · constructor
    · intro _
      exact hiff.mp hcond
    · intro _
      simp
  · constructor
    · intro hne
      exact absurd rfl hne
    · intro hr
      exact absurd (hiff.mpr hr) hcond

/-- C6 (code slip): the buffer-source relocation loop reuses the deck
loop's `j != i` guard, comparing a buffer index with a column index.
With `r2` in buffer slot 0, columns 0 and 1 topped by the equally-legal
destinations `b3` and `g3`, the relocation onto column 1 is generated but
the one onto column 0 is silently dropped. -/
theorem buffer_move_index_slip :
    moveCond ⟨'r', some 2⟩ 0 0 [⟨'b', some 3⟩] = false
    ∧ moveCond ⟨'r', some 2⟩ 0 1 [⟨'g', some 3⟩] = true
    ∧ get_num (⟨'b', some 3⟩ : Card) = some (2 + 1)
    ∧ get_type (⟨'b', some 3⟩ : Card) ≠ get_type (⟨'r', some 2⟩ : Card)
    ∧ (get_successors bufMoveState 100).2.all
        (fun t => !(canonical t
          == canonical (applyAction bufMoveState (.move ⟨'r', some 2⟩ .buffer 0 .deck (some 0))))) = true
    ∧ (get_successors bufMoveState 100).2.any
        (fun t => canonical t
          == canonical (applyAction bufMoveState (.move ⟨'r', some 2⟩ .buffer 0 .deck (some 1)))) = true := by
  refine ⟨by decide, by decide, by decide, by decide, by decide, by decide⟩

/-- C2 counterexample: on the deal with column `[f, r1]` the cascade scores
`r1` and stops with the flower freshly exposed; running it a second time
collects the flower, so cascading twice differs from cascading once. -/
theorem auto_proceed_not_idempotent_cex :
    ((auto_proceed 10 cascadeState).bind (auto_proceed 10) ≠ auto_proceed 10 cascadeState)
    ∧ (auto_proceed 10 cascadeState).map GameState.flower_in_deck = some true
    ∧ ((auto_proceed 10 cascadeState).bind (auto_proceed 10)).map GameState.flower_in_deck
        = some false := by
  refine ⟨by decide, by decide, by decide⟩

theorem auto_loop_exit (fuel : Nat) (s t : GameState) (h : auto_loop fuel s = some t) :
    auto_put_to_goal t = none := by
  induction fuel generalizing s with
  | zero => simp [auto_loop] at h
  | succ n ih =>
    unfold auto_loop at h
    cases hap : auto_put_to_goal s with
    | none =>
      rw [hap] at h
      obtain rfl := Option.some.inj h
      exact hap
    | some o =>
      rw [hap] at h
      cases o with
      | none => simp at h
      | some u => exact ih u h

/-- C2 amended: the cascade is idempotent on every state whose cascaded
result does not expose the flower on a column top (the flower check runs
once, before the scoring loop, so a freshly exposed flower survives until
the next cascade). -/
theorem auto_proceed_idempotent_after (fuel fuel2 : Nat) (s t : GameState)
    (h : auto_proceed fuel s = some t)
    (hfl : (t.flower_in_deck && flowerTop t) = false) :
    auto_proceed (fuel2 + 1) t = some t := by
  have hexit : auto_put_to_goal t = none := by
    unfold auto_proceed at h
    split_ifs at h with hc
    · cases htc : take_action_core s (.collect .flower) with
      | none => rw [htc] at h; simp at h
      | some u =>
        rw [htc] at h
        exact auto_loop_exit fuel u t h
    · exact auto_loop_exit fuel s t h
  unfold auto_proceed
  rw [hfl]
  simp only [Bool.false_eq_true, if_false]
  unfold auto_loop
  rw [hexit]

/-- The once-cascaded state of the C2 scenario (flower exposed). -/
def cascadeOnce : GameState := (auto_proceed 10 cascadeState).getD emptyBoard

/-- The twice-cascaded state of the C2 scenario (flower collected). -/
def cascadeTwice : GameState := (auto_proceed 10 cascadeOnce).getD emptyBoard

theorem auto_proceed_idempotent_after_witness :
    auto_proceed 4 cascadeTwice = some cascadeTwice :=
  auto_proceed_idempotent_after 10 3 cascadeOnce cascadeTwice (by decide) (by decide)

/-- C3 counterexample: with `max_depth = 0` (falsy in Python) the depth
cutoff is disabled — on a non-goal start the heuristic search expands past
the start state and returns a solution rather than giving up. -/
theorem a_star_depth_zero_cex :
    is_goal_state searchState = false
    ∧ a_star_solver searchState 0 (fun l n => l.take n) 5 100
        = .foundSol [.move ⟨'r', none⟩ .deck 1 .deck (some 2), .score ⟨'b', some 9⟩ .deck 0] := by
  refine ⟨by decide, by decide⟩

/-- C3 amended: for a *positive* maximum depth the search gives up (returns
no solution) as soon as the cheapest frontier entry's path length exceeds
the limit. -/
theorem a_star_positive_depth_cutoff (sampler : List GameState → Nat → List GameState)
    (fuel maxDepth sfuel : Nat) (dp : List (Int × Nat × GameState)) (met : List GameState)
    (f : Int) (g : Nat) (st : GameState) (rest : List (Int × Nat × GameState))
    (hpop : popMin dp = some ((f, g, st), rest))
    (hd : maxDepth ≠ 0) (hg : g > maxDepth) :
    a_star_loop sampler (fuel + 1) maxDepth dp met sfuel = .noSolution := by
  unfold a_star_loop
  rw [hpop]
  exact if_pos ⟨hd, hg⟩

theorem a_star_positive_depth_cutoff_witness :
    a_star_loop (fun l n => l.take n) 3 1 [(2000, 5, emptyBoard)] [] 10 = .noSolution :=
  a_star_positive_depth_cutoff (fun l n => l.take n) 2 1 10 [(2000, 5, emptyBoard)] []
    2000 5 emptyBoard [] (by decide) (by decide) (by decide)

theorem pushSel_go (xs : List (Option GameState)) (acc met : List (Option GameState)) :
    xs.foldl (fun a x => (if memS x a.2 then a.1 else a.1 ++ [x], x :: a.2)) (acc, met)
      = (acc ++ (pushSel met xs).1, (pushSel met xs).2) := by
  induction xs generalizing acc met with
  | nil => simp [pushSel]
  | cons x xs ih =>
    simp only [pushSel, List.foldl_cons]
    by_cases hm : memS x met
    · simp only [hm, if_true]
      rw [ih, ih]
      simp
    · simp only [hm, if_false, Bool.false_eq_true]
      rw [ih, ih]
      simp [List.append_assoc]

theorem pushSel_append (met : List (Option GameState)) (xs ys : List (Option GameState)) :
    pushSel met (xs ++ ys)
      = ((pushSel met xs).1 ++ (pushSel (pushSel met xs).2 ys).1,
         (pushSel (pushSel met xs).2 ys).2) := by
  unfold pushSel
  rw [List.foldl_append]
  have h1 : List.foldl (fun a x => (if memS x a.2 then a.1 else a.1 ++ [x], x :: a.2))
      (([] : List (Option GameState)), met) xs = (pushSel met xs) := rfl
  rw [h1]
  have h2 := pushSel_go ys (pushSel met xs).1 (pushSel met xs).2
  calc List.foldl _ (pushSel met xs) ys
      = List.foldl (fun a x => (if memS x a.2 then a.1 else a.1 ++ [x], x :: a.2))
          ((pushSel met xs).1, (pushSel met xs).2) ys := by rw [Prod.mk.eta]
    _ = _ := h2

theorem pushSel_subset (met : List (Option GameState)) (xs : List (Option GameState)) :
    ∀ x ∈ (pushSel met xs).1, x ∈ xs := by
  induction xs generalizing met with
  | nil => intro x hx; simp [pushSel] at hx
  | cons y ys ih =>
    intro x hx
    simp only [pushSel, List.foldl_cons] at hx
    by_cases hm : memS y met
    · simp only [hm, if_true] at hx
      have : x ∈ (pushSel (y :: met) ys).1 := by
        have := pushSel_go ys ([] : List (Option GameState)) (y :: met)
        rw [this] at hx
        simpa using hx
      exact List.mem_cons_of_mem _ (ih _ _ this)
    · simp only [hm, if_false, Bool.false_eq_true, List.nil_append] at hx
      have := pushSel_go ys [y] (y :: met)
      rw [this] at hx
      rcases List.mem_append.mp hx with h | h
      · simp at h
        simp [h]
      · exact List.mem_cons_of_mem _ (ih _ _ h)

theorem dfs_run_trace_head (fuel sfuel : Nat) (dp2 met2 : List (Option GameState))
    (z : Option GameState) (h : dp2.getLast? = some z) :
    (dfs_run (fuel + 1) dp2 met2 sfuel).2.take 1 = [z] := by
  unfold dfs_run
  rw [h]
  cases z with
  | none => rfl
  | some st =>
    by_cases hg : is_goal_state st
    · simp [hg]
    · simp [hg]

/-- C4 amended: dfs pushes its important successors *before* its other
successors, and pops the most recently pushed frontier entry — so whenever
at least one other successor is newly pushed, the state expanded right
after `st` is one of the other successors, not an important one (important
successors of a node are expanded after all of its other successors). -/
theorem dfs_expands_other_successor_first
    (fuel sfuel : Nat) (dp met : List (Option GameState)) (st : GameState)
    (imp : List (Option GameState)) (oth : List GameState)
    (hpop : dp.getLast? = some (some st))
    (hgoal : is_goal_state st = false)
    (hsucc : get_successors st sfuel = (imp, oth))
    (hne : (pushSel (pushSel met imp).2 (oth.map some)).1 ≠ []) :
    (dfs_run (fuel + 2) dp met sfuel).2.take 2
      = [some st, (pushSel (pushSel met imp).2 (oth.map some)).1.getLast?.getD none]
    ∧ (pushSel (pushSel met imp).2 (oth.map some)).1.getLast?.getD none ∈ oth.map some := by
  set po := (pushSel (pushSel met imp).2 (oth.map some)).1 with hpo
  set pii := (pushSel met imp).1 with hpi
  have hz : po.getLast? = some (po.getLast hne) := List.getLast?_eq_getLast po hne
  have hzmem : po.getLast?.getD none ∈ oth.map some := by
    rw [hz]
    exact pushSel_subset _ _ _ (List.getLast_mem hne)
  have key : (dfs_run (fuel + 2) dp met sfuel).2
      = some st :: (dfs_run (fuel + 1)
          (dp.dropLast ++ (pii ++ po))
          (pushSel (pushSel met imp).2 (oth.map some)).2 sfuel).2 := by
    show (dfs_run ((fuel + 1) + 1) dp met sfuel).2 = _
    unfold dfs_run
    rw [hpop]
    simp only [hgoal, Bool.false_eq_true, if_false, hsucc]
    rw [pushSel_append]
    rfl
  refine ⟨?_, hzmem⟩
  rw [key, List.take_succ_cons]
  have hlast : (dp.dropLast ++ (pii ++ po)).getLast? = some (po.getLast hne) := by
    rw [List.getLast?_append, List.getLast?_append, hz]
    rfl
  rw [dfs_run_trace_head fuel sfuel _ _ _ hlast, hz]
  rfl

/-- C4 counterexample: from a state with one important successor (scoring
b9) and one other successor (relocating the top r, which auto-scores into
goal), the dfs trace expands the *other* successor right after the start:
important states are pushed first and popped last. -/
theorem dfs_expands_other_first_cex :
    (get_successors searchState 100).1
      = [take_action searchState (.score ⟨'b', some 9⟩ .deck 0) true 100]
    ∧ (take_action searchState (.score ⟨'b', some 9⟩ .deck 0) true 100).isSome = true
    ∧ (dfs_run 3 [some searchState] [] 100).2
      = [some searchState,
         take_action searchState (.move ⟨'r', none⟩ .deck 1 .deck (some 2)) true 100]
    ∧ (take_action searchState (.move ⟨'r', none⟩ .deck 1 .deck (some 2)) true 100).isSome = true
    ∧ (take_action searchState (.score ⟨'b', some 9⟩ .deck 0) true 100).map canonical
      ≠ (take_action searchState (.move ⟨'r', none⟩ .deck 1 .deck (some 2)) true 100).map canonical := by
  refine ⟨by decide, by decide, by decide, by decide, by decide⟩

theorem dfs_expands_other_successor_first_witness :
    (dfs_run 5 [some searchState] [] 100).2.take 2
      = [some searchState,
         (pushSel (pushSel [] (get_successors searchState 100).1).2
            ((get_successors searchState 100).2.map some)).1.getLast?.getD none]
    ∧ (pushSel (pushSel [] (get_successors searchState 100).1).2
        ((get_successors searchState 100).2.map some)).1.getLast?.getD none
      ∈ (get_successors searchState 100).2.map some :=
  dfs_expands_other_successor_first 3 100 [some searchState] [] searchState
    (get_successors searchState 100).1 (get_successors searchState 100).2
    (by decide) (by decide) rfl (by decide)

/-- C7: on a state with empty lock maps (every state of a search run, by
`lock_maps_stay_empty`), `take_action` returns no successor exactly when
the canonical hash of the mutated configuration is already in the running
visited set — no exception is raised — and on success the new hash is
recorded into the visited set and the action appended to `solution`. -/
theorem take_action_visited_hash (s : GameState) (a : Action)
    (hl : s.locked_to_keys = []) :
    (take_action_core s a = none ↔ canonical (applyAction s a) ∈ s.history)
    ∧ ∀ t, take_action_core s a = some t →
        t.history = canonical (applyAction s a) :: s.history
        ∧ t.solution = s.solution ++ [a] := by
  have hlock : is_action_locked s a = false := by
    cases a <;> simp [is_action_locked, alLookup, hl]
  obtain ⟨e1, e2, -, -⟩ := applyAction_carry s a
  unfold take_action_core
  rw [hlock]
  simp only [Bool.false_eq_true, if_false]
  by_cases hmem : canonical (applyAction s a) ∈ (applyAction s a).history
  · rw [if_pos hmem]
    refine ⟨⟨fun _ => by rwa [e1] at hmem, fun _ => rfl⟩, fun t ht => by simp at ht⟩
  · rw [if_neg hmem]
    constructor
    · constructor
      · intro hsome
        simp at hsome
      · intro hmem2
        rw [← e1] at hmem2
        exact absurd hmem2 hmem
    · intro t ht
      obtain rfl := Option.some.inj ht
      obtain ⟨hc, hh, hs⟩ := post_lock_fields (applyAction s a) a
      constructor
      · show canonical (unlock_state (lock_state (applyAction s a) a) a)
            :: (unlock_state (lock_state (applyAction s a) a) a).history = _
        rw [hc, hh, e1]
      · show (unlock_state (lock_state (applyAction s a) a) a).solution ++ [a] = _
        rw [hs, e2]

theorem take_action_visited_hash_witness :
    take_action_core bufMoveState (.move ⟨'r', some 9⟩ .buffer 1 .deck (some 2)) = none
      ↔ canonical (applyAction bufMoveState (.move ⟨'r', some 9⟩ .buffer 1 .deck (some 2)))
          ∈ bufMoveState.history :=
  (take_action_visited_hash bufMoveState (.move ⟨'r', some 9⟩ .buffer 1 .deck (some 2))
    (by decide)).1

theorem range_map_getD (cols : List (List Card)) (n : Nat) (h : cols.length ≤ n) :
    (List.range n).map (fun i => cols.getD i []) = cols ++ List.replicate (n - cols.length) [] := by
  induction cols generalizing n with
  | nil =>
    simp [List.getD]
  | cons c cs ih =>
    cases n with
    | zero => simp at h
    | succ m =>
      rw [List.range_succ_eq_map]
      simp only [List.map_cons, List.map_map]
      have hcomp : ((fun i => (c :: cs).getD i []) ∘ Nat.succ) = (fun i => cs.getD i []) := rfl
      rw [hcomp, ih m (Nat.le_of_succ_le_succ h)]
      simp [Nat.succ_sub_succ]

/-- C8: states loaded from deals that differ only in the order of their
columns have equal canonical hash strings and compare equal; and whenever
two states compare equal, their hashes are equal (equality *is* hash
equality for `GameState`). -/
theorem state_identity_column_order (cols1 cols2 : List (List Card))
    (hperm : cols1.Perm cols2) (hlen : cols1.length ≤ 8) :
    canonical (load_state cols1) = canonical (load_state cols2)
    ∧ state_eq (load_state cols1) (load_state cols2) = true
    ∧ (∀ s t : GameState, state_eq s t = true → canonical s = canonical t) := by
  have hdeck1 : (load_state cols1).deck = cols1 ++ List.replicate (8 - cols1.length) [] :=
    range_map_getD cols1 8 hlen
  have hdeck2 : (load_state cols2).deck = cols2 ++ List.replicate (8 - cols2.length) [] :=
    range_map_getD cols2 8 (hperm.length_eq ▸ hlen)
  have hpermdeck : (load_state cols1).deck.Perm (load_state cols2).deck := by
    rw [hdeck1, hdeck2, ← hperm.length_eq]
    exact hperm.append_right _
  have hsort : sortStrs ((load_state cols1).deck.map colStr)
      = sortStrs ((load_state cols2).deck.map colStr) :=
    sortStrs_perm_eq (hpermdeck.map colStr)
  have hcan : canonical (load_state cols1) = canonical (load_state cols2) := by
    unfold canonical
    rw [hsort]
    rfl
  refine ⟨hcan, ?_, ?_⟩
  · unfold state_eq
    rw [hcan]
    simp
  · intro s t h
    unfold state_eq at h
    exact eq_of_beq h

/-- Two tiny deals differing only in column order. -/
def dealA : List (List Card) := [[⟨'r', some 1⟩], [⟨'g', some 2⟩, ⟨'b', none⟩]]

def dealB : List (List Card) := [[⟨'g', some 2⟩, ⟨'b', none⟩], [⟨'r', some 1⟩]]

theorem state_identity_column_order_witness :
    canonical (load_state dealA) = canonical (load_state dealB)
    ∧ state_eq (load_state dealA) (load_state dealB) = true :=
  ⟨(state_identity_column_order dealA dealB (by decide) (by decide)).1,
   (state_identity_column_order dealA dealB (by decide) (by decide)).2.1⟩

theorem getLast?_decomp (col : List Card) (c : Card) (h : col.getLast? = some c) :
    col.dropLast ++ [c] = col := by
  have hne : col ≠ [] := by
    intro e
    rw [e] at h
    simp at h
  have hl := List.dropLast_append_getLast hne
  rw [List.getLast?_eq_getLast _ hne] at h
  have h2 := Option.some.inj h
  subst h2
  exact hl

theorem count_decomp (col : List Card) (c x : Card) (h : col.getLast? = some c) :
    col.count x = (popTop col).count x + if x = c then 1 else 0 := by
  show col.count x = col.dropLast.count x + if x = c then 1 else 0
  conv_lhs => rw [← getLast?_decomp col c h]
  rw [List.count_append]
  congr 1
  by_cases hxc : x = c
  · subst hxc
    simp
  · have hb : (c == x) = false := beq_eq_false_iff_ne.mpr (Ne.symm hxc)
    simp [List.count_cons, hb, hxc]

theorem length_decomp (col : List Card) (c : Card) (h : col.getLast? = some c) :
    col.length = (popTop col).length + 1 := by
  show col.length = col.dropLast.length + 1
  conv_lhs => rw [← getLast?_decomp col c h]
  simp

theorem count_eraseIdx_getElem (l : List Card) (i : Nat) (c : Card) (h : l[i]? = some c)
    (x : Card) : l.count x = (l.eraseIdx i).count x + if x = c then 1 else 0 := by
  induction l generalizing i with
  | nil => simp at h
  | cons a as ih =>
    cases i with
    | zero =>
      simp only [List.getElem?_cons_zero] at h
      obtain rfl := Option.some.inj h
      simp only [List.eraseIdx_cons_zero, List.count_cons]
      congr 1
      by_cases hxa : x = a
      · subst hxa
        simp
      · have hb : (a == x) = false := beq_eq_false_iff_ne.mpr (Ne.symm hxa)
        simp [hb, hxa]
    | succ j =>
      simp only [List.getElem?_cons_succ] at h
      simp only [List.eraseIdx_cons_succ, List.count_cons]
      rw [ih j h]
      omega

theorem length_eraseIdx_getElem (l : List Card) (i : Nat) (c : Card) (h : l[i]? = some c) :
    l.length = (l.eraseIdx i).length + 1 := by
  have hi : i < l.length := by
    by_contra hge
    rw [List.getElem?_eq_none (Nat.le_of_not_lt hge)] at h
    simp at h
  rw [List.length_eraseIdx]
  simp [hi]
  omega

theorem sum_map_modify (g : List Card → Nat) (f : List Card → List Card)
    (dk : List (List Card)) (i : Nat) (hi : i < dk.length) :
    ((List.modify f i dk).map g).sum + g (dk.get ⟨i, hi⟩)
      = (dk.map g).sum + g (f (dk.get ⟨i, hi⟩)) := by
  induction dk generalizing i with
  | nil => simp at hi
  | cons a as ih =>
    cases i with
    | zero =>
      show ((f a :: as).map g).sum + g a = ((a :: as).map g).sum + g (f a)
      simp [Nat.add_comm, Nat.add_left_comm]
    | succ j =>
      have hj : j < as.length := Nat.lt_of_succ_lt_succ hi
      show ((a :: List.modify f j as).map g).sum + g (as.get ⟨j, hj⟩)
          = ((a :: as).map g).sum + g (f (as.get ⟨j, hj⟩))
      simp only [List.map_cons, List.sum_cons]
      have := ih j hj
      omega

theorem count_singleton_ite (c x : Card) : List.count x [c] = if x = c then 1 else 0 := by
  by_cases hxc : x = c
  · subst hxc
    simp
  · have hb : (c == x) = false := beq_eq_false_iff_ne.mpr (Ne.symm hxc)
    simp [List.count_cons, hb, hxc]

theorem sourceTop_deck_lt (s : GameState) (sp : Nat) (c : Card)
    (hsrc : sourceTop s .deck sp = some c) : sp < s.deck.length := by
  by_contra hge
  unfold sourceTop at hsrc
  rw [List.getD_eq_getElem?_getD, List.getElem?_eq_none (Nat.le_of_not_lt hge)] at hsrc
  simp at hsrc

theorem sourceTop_buffer_lt (s : GameState) (sp : Nat) (c : Card)
    (hsrc : sourceTop s .buffer sp = some c) : sp < s.buffer_area.length := by
  by_contra hge
  unfold sourceTop at hsrc
  rw [List.getElem?_eq_none (Nat.le_of_not_lt hge)] at hsrc
  simp at hsrc

/-- Removing the top card of the source removes exactly one copy of `c`. -/
theorem countOf_removeSource (s : GameState) (src : Area) (sp : Nat) (c : Card)
    (hsrc : sourceTop s src sp = some c) (x : Card) :
    countOf (removeSource s src sp) x + (if x = c then 1 else 0) = countOf s x := by
  cases src with
  | deck =>
    have hlt : sp < s.deck.length := sourceTop_deck_lt s sp c hsrc
    have hcol : s.deck.getD sp [] = s.deck.get ⟨sp, hlt⟩ := by
      rw [List.getD_eq_getElem?_getD, List.getElem?_eq_getElem hlt]
      rfl
    have htop : (s.deck.get ⟨sp, hlt⟩).getLast? = some c := by
      unfold sourceTop at hsrc
      rwa [hcol] at hsrc
    have hsum := sum_map_modify (List.count x) popTop s.deck sp hlt
    have hdec := count_decomp (s.deck.get ⟨sp, hlt⟩) c x htop
    unfold countOf removeSource
    simp only
    omega
  | buffer =>
    have hlt : sp < s.buffer_area.length := sourceTop_buffer_lt s sp c hsrc
    have hget : s.buffer_area[sp]? = some c := hsrc
    have := count_eraseIdx_getElem s.buffer_area sp c hget x
    unfold countOf removeSource
    simp only
    omega

theorem cardCountTotal_removeSource (s : GameState) (src : Area) (sp : Nat) (c : Card)
    (hsrc : sourceTop s src sp = some c) :
    cardCountTotal (removeSource s src sp) + 1 = cardCountTotal s := by
  cases src with
  | deck =>
    have hlt : sp < s.deck.length := sourceTop_deck_lt s sp c hsrc
    have hcol : s.deck.getD sp [] = s.deck.get ⟨sp, hlt⟩ := by
      rw [List.getD_eq_getElem?_getD, List.getElem?_eq_getElem hlt]
      rfl
    have htop : (s.deck.get ⟨sp, hlt⟩).getLast? = some c := by
      unfold sourceTop at hsrc
      rwa [hcol] at hsrc
    have hsum := sum_map_modify List.length popTop s.deck sp hlt
    have hdec := length_decomp (s.deck.get ⟨sp, hlt⟩) c htop
    unfold cardCountTotal removeSource
    simp only
    omega
  | buffer =>
    have hlt : sp < s.buffer_area.length := sourceTop_buffer_lt s sp c hsrc
    have hget : s.buffer_area[sp]? = some c := hsrc
    have := length_eraseIdx_getElem s.buffer_area sp c hget
    unfold cardCountTotal removeSource
    simp only
    omega

/-- Appending the moved card at the destination adds exactly one copy. -/
theorem countOf_addDest (s : GameState) (c : Card) (dst : Area) (tp : Option Nat)
    (hdst : dst = .buffer ∨ ∃ j, tp = some j ∧ j < s.deck.length) (x : Card) :
    countOf (addDest s c dst tp) x = countOf s x + (if x = c then 1 else 0) := by
  cases dst with
  | buffer =>
    unfold countOf addDest
    simp only
    rw [List.count_append, count_singleton_ite]
    omega
  | deck =>
    rcases hdst with h | ⟨j, htp, hj⟩
    · simp at h
    · subst htp
      have hsum := sum_map_modify (List.count x) (fun col => col ++ [c]) s.deck j hj
      have happ : (s.deck.get ⟨j, hj⟩ ++ [c]).count x
          = (s.deck.get ⟨j, hj⟩).count x + (if x = c then 1 else 0) := by
        rw [List.count_append, count_singleton_ite]
      unfold countOf addDest
      simp only at hsum ⊢
      omega

theorem cardCountTotal_addDest (s : GameState) (c : Card) (dst : Area) (tp : Option Nat)
    (hdst : dst = .buffer ∨ ∃ j, tp = some j ∧ j < s.deck.length) :
    cardCountTotal (addDest s c dst tp) = cardCountTotal s + 1 := by
  cases dst with
  | buffer =>
    unfold cardCountTotal addDest
    simp only [List.length_append, List.length_singleton]
    omega
  | deck =>
    rcases hdst with h | ⟨j, htp, hj⟩
    · simp at h
    · subst htp
      have hsum := sum_map_modify List.length (fun col => col ++ [c]) s.deck j hj
      unfold cardCountTotal addDest
      simp only [List.length_append, List.length_singleton] at hsum ⊢
      omega

theorem countOf_applyMove (s : GameState) (c : Card) (src : Area) (sp : Nat)
    (dst : Area) (tp : Option Nat)
    (hsrc : sourceTop s src sp = some c)
    (hdst : dst = .buffer ∨ ∃ j, tp = some j ∧ j < s.deck.length) (x : Card) :
    countOf (applyAction s (.move c src sp dst tp)) x = countOf s x := by
  have hdeck : (removeSource s src sp).deck.length = s.deck.length := by
    cases src with
    | deck => simp [removeSource, List.length_modify]
    | buffer => rfl
  have hdst2 : dst = .buffer
      ∨ ∃ j, tp = some j ∧ j < (removeSource s src sp).deck.length := by
    rcases hdst with h | ⟨j, htp, hj⟩
    · exact Or.inl h
    · exact Or.inr ⟨j, htp, hdeck ▸ hj⟩
  have h1 := countOf_removeSource s src sp c hsrc x
  have h2 := countOf_addDest (removeSource s src sp) c dst tp hdst2 x
  show countOf (addDest (removeSource s src sp) c dst tp) x = countOf s x
  omega

theorem cardCountTotal_applyMove (s : GameState) (c : Card) (src : Area) (sp : Nat)
    (dst : Area) (tp : Option Nat)
    (hsrc : sourceTop s src sp = some c)
    (hdst : dst = .buffer ∨ ∃ j, tp = some j ∧ j < s.deck.length) :
    cardCountTotal (applyAction s (.move c src sp dst tp)) = cardCountTotal s := by
  have hdeck : (removeSource s src sp).deck.length = s.deck.length := by
    cases src with
    | deck => simp [removeSource, List.length_modify]
    | buffer => rfl
  have hdst2 : dst = .buffer
      ∨ ∃ j, tp = some j ∧ j < (removeSource s src sp).deck.length := by
    rcases hdst with h | ⟨j, htp, hj⟩
    · exact Or.inl h
    · exact Or.inr ⟨j, htp, hdeck ▸ hj⟩
  have h1 := cardCountTotal_removeSource s src sp c hsrc
  have h2 := cardCountTotal_addDest (removeSource s src sp) c dst tp hdst2
  show cardCountTotal (addDest (removeSource s src sp) c dst tp) = cardCountTotal s
  omega

theorem deckLen_applyMove (s : GameState) (c : Card) (src : Area) (sp : Nat)
    (dst : Area) (tp : Option Nat) :
    (applyAction s (.move c src sp dst tp)).deck.length = s.deck.length := by
  have hmid : (removeSource s src sp).deck.length = s.deck.length := by
    cases src with
    | deck => simp [removeSource, List.length_modify]
    | buffer => rfl
  show (addDest (removeSource s src sp) c dst tp).deck.length = s.deck.length
  cases dst with
  | deck =>
    cases tp with
    | some j => simpa [addDest, List.length_modify] using hmid
    | none => simpa [addDest] using hmid
  | buffer => simpa [addDest] using hmid

theorem sourceTop_after_move (s : GameState) (c : Card) (src : Area) (sp : Nat)
    (dst : Area) (tp : Option Nat)
    (hdst : dst = .buffer ∨ ∃ j, tp = some j ∧ j < s.deck.length) :
    sourceTop (applyAction s (.move c src sp dst tp)) dst
      (invSrcPos s c src sp dst tp) = some c := by
  cases dst with
  | deck =>
    rcases hdst with h | ⟨j, htp, hj⟩
    · simp at h
    · subst htp
      show sourceTop (addDest (removeSource s src sp) c .deck (some j)) .deck
        (invSrcPos s c src sp .deck (some j)) = some c
      rw [show invSrcPos s c src sp .deck (some j) = j from rfl]
      have hmidlen : (removeSource s src sp).deck.length = s.deck.length := by
        cases src with
        | deck => simp [removeSource, List.length_modify]
        | buffer => rfl
      have hjlen : j < (removeSource s src sp).deck.length := by omega
      unfold sourceTop addDest
      simp only
      rw [List.getD_eq_getElem?_getD,
        List.getElem?_eq_getElem (by simpa [List.length_modify] using hjlen)]
      rw [List.getElem_modify_eq (fun col => col ++ [c]) j (removeSource s src sp).deck
        (by simpa [List.length_modify] using hjlen)]
      simp [List.getLast?_concat]
  | buffer =>
    have hbuf : (addDest (removeSource s src sp) c .buffer tp).buffer_area
        = (removeSource s src sp).buffer_area ++ [c] := by
      cases tp <;> rfl
    have hpos : invSrcPos s c src sp .buffer tp
        = (removeSource s src sp).buffer_area.length := by
      cases tp with
      | none =>
        show (addDest (removeSource s src sp) c .buffer none).buffer_area.length - 1 = _
        rw [hbuf]
        simp
      | some v =>
        show (addDest (removeSource s src sp) c .buffer (some v)).buffer_area.length - 1 = _
        rw [hbuf]
        simp
    rw [hpos]
    show (addDest (removeSource s src sp) c .buffer tp).buffer_area[(removeSource s src sp).buffer_area.length]? = some c
    rw [hbuf]
    exact List.getElem?_concat_length _ _

/-- C9 amended: relocating the top card of a source and then applying its
hand-constructed inverse leaves the per-card counts across buffer and
columns unchanged, and already a single relocation leaves the total
buffer+columns card count unchanged.  (The total is *not* constant at
40/39 across a run: `Score` removes one card and `Collect` removes four.) -/
theorem move_and_inverse_preserve_counts (s : GameState) (c : Card) (src : Area) (sp : Nat)
    (dst : Area) (tp : Option Nat)
    (hsrc : sourceTop s src sp = some c)
    (hdst : dst = .buffer ∨ ∃ j, tp = some j ∧ j < s.deck.length) :
    (∀ x, countOf (applyAction (applyAction s (.move c src sp dst tp))
        (inverseMove s c src sp dst tp)) x = countOf s x)
    ∧ cardCountTotal (applyAction s (.move c src sp dst tp)) = cardCountTotal s := by
  have hsrc2 := sourceTop_after_move s c src sp dst tp hdst
  have hdst2 : src = .buffer
      ∨ ∃ j2, invDstPos src sp = some j2
          ∧ j2 < (applyAction s (.move c src sp dst tp)).deck.length := by
    cases src with
    | deck =>
      refine Or.inr ⟨sp, rfl, ?_⟩
      rw [deckLen_applyMove]
      exact sourceTop_deck_lt s sp c hsrc
    | buffer => exact Or.inl rfl
  constructor
  · intro x
    have h2 := countOf_applyMove (applyAction s (.move c src sp dst tp)) c dst
      (invSrcPos s c src sp dst tp) src (invDstPos src sp) hsrc2 hdst2 x
    have h1 := countOf_applyMove s c src sp dst tp hsrc hdst x
    calc countOf (applyAction (applyAction s (.move c src sp dst tp))
          (inverseMove s c src sp dst tp)) x
        = countOf (applyAction s (.move c src sp dst tp)) x := h2
      _ = countOf s x := h1
  · exact cardCountTotal_applyMove s c src sp dst tp hsrc hdst

/-- C9 counterexample: on the freshly-loaded full 40-card deal (flower in
play) the generated score of the exposed `g1` drops the buffer+columns
card count from 40 to 39 while the flower is still in the deck — the
total is not invariant at 40 before the flower is collected. -/
theorem card_count_not_invariant_cex :
    cardCountTotal fullState = 40
    ∧ fullState.flower_in_deck = true
    ∧ scoreCond fullState ⟨'g', some 1⟩ = true
    ∧ (take_action_core fullState (.score ⟨'g', some 1⟩ .deck 1)).map countAndFlower
        = some (39, true) := by
  refine ⟨by decide, by decide, by decide, by decide⟩

theorem move_and_inverse_preserve_counts_witness :
    countOf (applyAction (applyAction bufMoveState (.move ⟨'r', some 9⟩ .buffer 1 .deck (some 2)))
        (inverseMove bufMoveState ⟨'r', some 9⟩ .buffer 1 .deck (some 2))) ⟨'r', some 9⟩
      = countOf bufMoveState ⟨'r', some 9⟩
    ∧ cardCountTotal (applyAction bufMoveState (.move ⟨'r', some 9⟩ .buffer 1 .deck (some 2)))
      = cardCountTotal bufMoveState :=
  ⟨(move_and_inverse_preserve_counts bufMoveState ⟨'r', some 9⟩ .buffer 1 .deck (some 2)
      (by decide) (Or.inr ⟨2, rfl, by decide⟩)).1 ⟨'r', some 9⟩,
   (move_and_inverse_preserve_counts bufMoveState ⟨'r', some 9⟩ .buffer 1 .deck (some 2)
      (by decide) (Or.inr ⟨2, rfl, by decide⟩)).2⟩

/-! ### The measure on canonical strings -/

theorem digitChar_not_p (d : Nat) (h : d < 10) :
    (digitChar d).isAlpha = false ∧ ((digitChar d) == 'T') = false := by
  interval_cases d <;> exact ⟨by decide, by decide⟩

theorem natCharsGo_not_p (fuel n : Nat) :
    ∀ c ∈ natCharsGo fuel n, c.isAlpha = false ∧ (c == 'T') = false := by
  induction fuel generalizing n with
  | zero => intro c hc; simp [natCharsGo] at hc
  | succ m ih =>
    intro c hc
    unfold natCharsGo at hc
    split_ifs at hc with h10
    · simp at hc
      subst hc
      exact digitChar_not_p n h10
    · rcases List.mem_append.mp hc with h | h
      · exact ih (n / 10) c h
      · simp at h
        subst h
        exact digitChar_not_p (n % 10) (Nat.mod_lt n (by omega))

theorem muC_append (a b : List Char) : muC (a ++ b) = muC a + muC b := by
  unfold muC
  rw [List.countP_append, List.countP_append]
  ring

theorem muC_natChars (n : Nat) : muC (natChars n) = 0 := by
  unfold muC
  have h1 : (natChars n).countP (fun c => c.isAlpha) = 0 := by
    rw [List.countP_eq_zero]
    intro c hc
    simp [(natCharsGo_not_p (n+1) n c hc).1]
  have h2 : (natChars n).countP (fun c => c == 'T') = 0 := by
    rw [List.countP_eq_zero]
    intro c hc
    simp [(natCharsGo_not_p (n+1) n c hc).2]
  rw [h1, h2]

theorem muC_cardStr_wf (c : Card) (h : wfCardB c = true) : muC (cardStr c) = 2 := by
  unfold wfCardB at h
  rw [Bool.and_eq_true, Bool.not_eq_true'] at h
  unfold cardStr muC
  cases hr : c.rank with
  | none =>
    simp only [hr, List.countP_cons, List.countP_nil, h.1, h.2]
    rfl
  | some n =>
    have h1 := muC_natChars n
    unfold muC at h1
    simp only [hr, List.countP_cons]
    have ha : (natChars n).countP (fun c => c.isAlpha) = 0 := by omega
    have hb : (natChars n).countP (fun c => c == 'T') = 0 := by omega
    simp only [ha, hb, h.1, h.2]
    rfl

theorem muC_cons_space (l : List Char) : muC (' ' :: l) = muC l := by
  have h1 : (' '.isAlpha) = false := by decide
  have h2 : ((' ' : Char) == 'T') = false := by decide
  unfold muC
  simp [List.countP_cons, h1, h2]

theorem muC_joinSpace (L : List (List Char)) : muC (joinSpace L) = (L.map muC).sum := by
  induction L with
  | nil => rfl
  | cons x xs ih =>
    cases xs with
    | nil => simp [joinSpace]
    | cons y ys =>
      show muC (x ++ ' ' :: joinSpace (y :: ys)) = _
      rw [muC_append, muC_cons_space, ih]
      simp

theorem muC_flatten (LL : List (List Char)) : muC LL.flatten = (LL.map muC).sum := by
  induction LL with
  | nil => rfl
  | cons x xs ih =>
    rw [List.flatten_cons, muC_append, ih]
    simp

theorem muC_sortStrs (L : List (List Char)) : ((sortStrs L).map muC).sum = (L.map muC).sum :=
  ((List.perm_insertionSort lexLeP L).map muC).sum_eq

theorem muC_colStr (col : List Card) : muC (colStr col) = colMu col := by
  unfold colStr colMu
  rw [muC_flatten, List.map_map]
  rfl

/-- The measure of a state's canonical string: the card tokens weigh
`colMu`/`bufMu`, the goal segment always weighs 20 (10 letters, digits are
weightless), `True` weighs 9 and `False` 10. -/
theorem muC_canonical (s : GameState) :
    muC (canonical s) = deckMu s + bufMu s + 20 + (if s.flower_in_deck then 9 else 10) := by
  unfold canonical
  rw [muC_append, muC_append, muC_append]
  have hA : muC (joinSpace (sortStrs (s.deck.map colStr))) = deckMu s := by
    rw [muC_joinSpace, muC_sortStrs, List.map_map]
    unfold deckMu
    congr 1
    apply List.map_congr_left
    intro col _
    exact muC_colStr col
  have hB : muC (joinSpace (sortStrs (s.buffer_area.map cardStr))) = bufMu s := by
    rw [muC_joinSpace, muC_sortStrs, List.map_map]
    rfl
  have hC : muC ("dict_values([".data ++ natChars s.goal_r ++ ", ".data ++ natChars s.goal_g
      ++ ", ".data ++ natChars s.goal_b ++ "])".data) = 20 := by
    simp only [muC_append, muC_natChars]
    decide
  have hD : muC (if s.flower_in_deck then "True".data else "False".data)
      = (if s.flower_in_deck then 9 else 10) := by
    split_ifs <;> decide
  rw [hA, hB, hC, hD]
/-! ### Effect of each important action on the measure -/

theorem setGoal_cardFields (t : GameState) (k : Char) (v : Nat) :
    (setGoal t k v).buffer_area = t.buffer_area ∧ (setGoal t k v).deck = t.deck
    ∧ (setGoal t k v).flower_in_deck = t.flower_in_deck := by
  unfold setGoal
  split_ifs <;> exact ⟨rfl, rfl, rfl⟩

theorem setCollected_cardFields (t : GameState) (k : Char) :
    (setCollected t k).buffer_area = t.buffer_area ∧ (setCollected t k).deck = t.deck
    ∧ (setCollected t k).flower_in_deck = t.flower_in_deck := by
  unfold setCollected
  split_ifs <;> exact ⟨rfl, rfl, rfl⟩

theorem deckMu_eq (t u : GameState) (h : t.deck = u.deck) : deckMu t = deckMu u := by
  unfold deckMu
  rw [h]

theorem bufMu_eq (t u : GameState) (h : t.buffer_area = u.buffer_area) : bufMu t = bufMu u := by
  unfold bufMu
  rw [h]

theorem colMu_decomp (col : List Card) (c : Card) (h : col.getLast? = some c) :
    colMu col = colMu (popTop col) + muC (cardStr c) := by
  have hd := getLast?_decomp col c h
  calc colMu col = colMu (col.dropLast ++ [c]) := by rw [hd]
    _ = colMu col.dropLast + muC (cardStr c) := by simp [colMu]
    _ = colMu (popTop col) + muC (cardStr c) := rfl

theorem sum_map_eraseIdx (g : Card → Nat) (l : List Card) (i : Nat) (c : Card)
    (h : l[i]? = some c) : ((l.eraseIdx i).map g).sum + g c = (l.map g).sum := by
  induction l generalizing i with
  | nil => simp at h
  | cons a as ih =>
    cases i with
    | zero =>
      simp only [List.getElem?_cons_zero] at h
      obtain rfl := Option.some.inj h
      simp [List.eraseIdx_cons_zero, Nat.add_comm]
    | succ j =>
      simp only [List.getElem?_cons_succ] at h
      simp only [List.eraseIdx_cons_succ, List.map_cons, List.sum_cons]
      have := ih j h
      omega

/-- Removing the source card lowers the deck+buffer measure by its weight. -/
theorem mu_removeSource (s : GameState) (src : Area) (sp : Nat) (c : Card)
    (hsrc : sourceTop s src sp = some c) :
    deckMu (removeSource s src sp) + bufMu (removeSource s src sp) + muC (cardStr c)
      = deckMu s + bufMu s := by
  cases src with
  | deck =>
    have hlt : sp < s.deck.length := sourceTop_deck_lt s sp c hsrc
    have hcol : s.deck.getD sp [] = s.deck.get ⟨sp, hlt⟩ := by
      rw [List.getD_eq_getElem?_getD, List.getElem?_eq_getElem hlt]
      rfl
    have htop : (s.deck.get ⟨sp, hlt⟩).getLast? = some c := by
      unfold sourceTop at hsrc
      rwa [hcol] at hsrc
    have hsum := sum_map_modify colMu popTop s.deck sp hlt
    have hdec := colMu_decomp (s.deck.get ⟨sp, hlt⟩) c htop
    have hdk : (removeSource s .deck sp).deck = List.modify popTop sp s.deck := rfl
    have hbf : (removeSource s .deck sp).buffer_area = s.buffer_area := rfl
    unfold deckMu bufMu
    rw [hdk, hbf]
    omega
  | buffer =>
    have hget : s.buffer_area[sp]? = some c := hsrc
    have hh : ((s.buffer_area.eraseIdx sp).map (fun c => muC (cardStr c))).sum + muC (cardStr c)
        = (s.buffer_area.map (fun c => muC (cardStr c))).sum :=
      sum_map_eraseIdx (fun c => muC (cardStr c)) s.buffer_area sp c hget
    have hdk : (removeSource s .buffer sp).deck = s.deck := rfl
    have hbf : (removeSource s .buffer sp).buffer_area = s.buffer_area.eraseIdx sp := rfl
    unfold deckMu bufMu
    rw [hdk, hbf]
    omega

/-- Scoring a well-formed visible card lowers the canonical measure by 2. -/
theorem muC_apply_score (s : GameState) (c : Card) (src : Area) (sp : Nat)
    (hwf : wfCardB c = true) (hsrc : sourceTop s src sp = some c) :
    muC (canonical (applyAction s (.score c src sp))) + 2 = muC (canonical s) := by
  rw [muC_canonical, muC_canonical]
  obtain ⟨hb, hd, hf⟩ := setGoal_cardFields (removeSource s src sp) (get_type c) ((get_num c).getD 0)
  have h1 : deckMu (applyAction s (.score c src sp)) = deckMu (removeSource s src sp) :=
    deckMu_eq _ _ hd
  have h2 : bufMu (applyAction s (.score c src sp)) = bufMu (removeSource s src sp) :=
    bufMu_eq _ _ hb
  have h3 : (applyAction s (.score c src sp)).flower_in_deck = s.flower_in_deck :=
    hf.trans (by cases src <;> rfl)
  have h4 := mu_removeSource s src sp c hsrc
  rw [muC_cardStr_wf c hwf] at h4
  rw [h1, h2, h3]
  omega

theorem sum_map_filter_ne (g : Card → Nat) (a : Card) (l : List Card) :
    ((l.filter (fun x => !(x == a))).map g).sum + l.count a * g a = (l.map g).sum := by
  induction l with
  | nil => simp
  | cons x xs ih =>
    by_cases hxa : x = a
    · subst hxa
      have hfc : (x :: xs).filter (fun y => !(y == x)) = xs.filter (fun y => !(y == x)) := by
        simp [List.filter_cons]
      have hcc : (x :: xs).count x = xs.count x + 1 := by simp [List.count_cons]
      rw [hfc, hcc, List.map_cons, List.sum_cons, Nat.add_mul]
      omega
    · have hb : (x == a) = false := beq_eq_false_iff_ne.mpr hxa
      have hfc : (x :: xs).filter (fun y => !(y == a)) = x :: xs.filter (fun y => !(y == a)) := by
        simp [List.filter_cons, hb]
      have hcc : (x :: xs).count a = xs.count a := by
        simp [List.count_cons, hb]
      rw [hfc, hcc, List.map_cons, List.sum_cons, List.map_cons, List.sum_cons]
      omega

theorem collect_deck_mu (k : Char) (hk : muC (cardStr (colorCard k)) = 2)
    (dk : List (List Card)) :
    ((dk.map (fun col => if col.getLast? == some (colorCard k) then popTop col else col)).map
        colMu).sum
      + (dk.countP (fun col => col.getLast? == some (colorCard k))) * 2
      = (dk.map colMu).sum := by
  induction dk with
  | nil => simp
  | cons col cols ih =>
    simp only [List.map_cons, List.sum_cons, List.countP_cons]
    by_cases hc : (col.getLast? == some (colorCard k)) = true
    · have heq : col.getLast? = some (colorCard k) := by simpa using hc
      have hdec := colMu_decomp col (colorCard k) heq
      rw [hk] at hdec
      simp only [hc, if_true]
      rw [Nat.add_mul]
      omega
    · have hc2 : (col.getLast? == some (colorCard k)) = false := by
        simpa using hc
      simp only [hc2, Bool.false_eq_true, if_false]
      omega

theorem applyAction_collect_color_fields (s : GameState) (k : Char) :
    (applyAction s (.collect (.color k))).buffer_area
        = s.buffer_area.filter (fun x => !(x == colorCard k))
    ∧ (applyAction s (.collect (.color k))).deck
        = s.deck.map (fun col => if col.getLast? == some (colorCard k) then popTop col else col)
    ∧ (applyAction s (.collect (.color k))).flower_in_deck = s.flower_in_deck := by
  obtain ⟨hb, hd, hf⟩ := setCollected_cardFields
    { s with
      buffer_size := s.buffer_size - 1,
      buffer_area := s.buffer_area.filter (fun x => !(x == colorCard k)),
      deck := s.deck.map (fun col =>
        if col.getLast? == some (colorCard k) then popTop col else col) } k
  exact ⟨hb, hd, hf⟩

/-- Collecting the four visible copies of a color lowers the measure by 8. -/
theorem muC_apply_collect_color (s : GameState) (k : Char)
    (hk : muC (cardStr (colorCard k)) = 2)
    (hcnt : s.deck.countP (fun col => col.getLast? == some (colorCard k))
        + s.buffer_area.count (colorCard k) = 4) :
    muC (canonical (applyAction s (.collect (.color k)))) + 8 = muC (canonical s) := by
  rw [muC_canonical, muC_canonical]
  obtain ⟨hb, hd, hf⟩ := applyAction_collect_color_fields s k
  have h1 : deckMu (applyAction s (.collect (.color k)))
      = ((s.deck.map (fun col =>
          if col.getLast? == some (colorCard k) then popTop col else col)).map colMu).sum := by
    unfold deckMu
    rw [hd]
  have h2 : bufMu (applyAction s (.collect (.color k)))
      = ((s.buffer_area.filter (fun x => !(x == colorCard k))).map
          (fun c => muC (cardStr c))).sum := by
    unfold bufMu
    rw [hb]
  have h4 := collect_deck_mu k hk s.deck
  have h5 : ((s.buffer_area.filter (fun x => !(x == colorCard k))).map
        (fun c => muC (cardStr c))).sum + s.buffer_area.count (colorCard k) * 2
      = (s.buffer_area.map (fun c => muC (cardStr c))).sum := by
    have h5a := sum_map_filter_ne (fun c => muC (cardStr c)) (colorCard k) s.buffer_area
    have h5c : s.buffer_area.count (colorCard k) * muC (cardStr (colorCard k))
        = s.buffer_area.count (colorCard k) * 2 := by
      rw [hk]
    omega
  rw [h1, h2, hf]
  unfold deckMu bufMu
  omega

/-- Collecting the exposed flower lowers the measure by 1 (a token goes,
`True` becomes `False`). -/
theorem muC_apply_flower (s : GameState) (hfl : s.flower_in_deck = true)
    (hTop : flowerTop s = true) :
    muC (canonical (applyAction s (.collect .flower))) + 1 = muC (canonical s) := by
  rw [muC_canonical, muC_canonical]
  have h3 : (applyAction s (.collect .flower)).flower_in_deck = false := rfl
  have h2 : bufMu (applyAction s (.collect .flower)) = bufMu s := rfl
  cases hidx : s.deck.findIdx? (fun col => col.getLast? == some flowerCard) with
  | none =>
    rw [List.findIdx?_eq_none_iff] at hidx
    unfold flowerTop at hTop
    rw [List.any_eq_true] at hTop
    obtain ⟨col, hcol, hp⟩ := hTop
    rw [hidx col hcol] at hp
    simp at hp
  | some i =>
    obtain ⟨hlt, hp, -⟩ := List.findIdx?_eq_some_iff_getElem.mp hidx
    have htop : (s.deck.get ⟨i, hlt⟩).getLast? = some flowerCard := by simpa using hp
    have h1 : deckMu (applyAction s (.collect .flower))
        = ((List.modify popTop i s.deck).map colMu).sum := by
      show deckMu { s with flower_in_deck := false, deck := popFlower s.deck } = _
      unfold deckMu popFlower
      rw [hidx]
    have hsum := sum_map_modify colMu popTop s.deck i hlt
    have hdec := colMu_decomp (s.deck.get ⟨i, hlt⟩) flowerCard htop
    have hflmu : muC (cardStr flowerCard) = 2 := by decide
    rw [hflmu] at hdec
    rw [h1, h2, h3, hfl]
    unfold deckMu
    norm_num
    omega
/-! ### Preservation of card well-formedness by the important actions -/

theorem allWF_split (s : GameState) (h : allWF s = true) :
    s.buffer_area.all wfCardB = true ∧ s.deck.all (fun col => col.all wfCardB) = true := by
  unfold allWF at h
  rw [Bool.and_eq_true] at h
  exact h

theorem wf_sub (l m : List Card) (hsub : m ⊆ l) (h : l.all wfCardB = true) :
    m.all wfCardB = true := by
  rw [List.all_eq_true] at h ⊢
  intro x hx
  exact h x (hsub hx)

theorem all_wf_modify (l : List (List Card)) (i : Nat)
    (h : l.all (fun col => col.all wfCardB) = true) :
    (List.modify popTop i l).all (fun col => col.all wfCardB) = true := by
  induction l generalizing i with
  | nil => cases i <;> exact h
  | cons a as ih =>
    rw [List.all_cons, Bool.and_eq_true] at h
    cases i with
    | zero =>
      show ((popTop a :: as).all (fun col => col.all wfCardB)) = true
      rw [List.all_cons, Bool.and_eq_true]
      exact ⟨wf_sub a (popTop a) (List.dropLast_subset a) h.1, h.2⟩
    | succ j =>
      show ((a :: List.modify popTop j as).all (fun col => col.all wfCardB)) = true
      rw [List.all_cons, Bool.and_eq_true]
      exact ⟨h.1, ih j h.2⟩

theorem allWF_fields (t u : GameState) (hb : t.buffer_area = u.buffer_area)
    (hd : t.deck = u.deck) : allWF t = allWF u := by
  unfold allWF
  rw [hb, hd]

theorem allWF_removeSource (s : GameState) (src : Area) (sp : Nat) (h : allWF s = true) :
    allWF (removeSource s src sp) = true := by
  obtain ⟨hbuf, hdeck⟩ := allWF_split s h
  cases src with
  | deck =>
    show (s.buffer_area.all wfCardB
        && (List.modify popTop sp s.deck).all (fun col => col.all wfCardB)) = true
    rw [Bool.and_eq_true]
    exact ⟨hbuf, all_wf_modify s.deck sp hdeck⟩
  | buffer =>
    show ((s.buffer_area.eraseIdx sp).all wfCardB
        && s.deck.all (fun col => col.all wfCardB)) = true
    rw [Bool.and_eq_true]
    exact ⟨wf_sub s.buffer_area _ (List.eraseIdx_subset _ _) hbuf, hdeck⟩

theorem allWF_apply_score (s : GameState) (c : Card) (src : Area) (sp : Nat)
    (h : allWF s = true) :
    allWF (applyAction s (.score c src sp)) = true := by
  obtain ⟨hb, hd, -⟩ := setGoal_cardFields (removeSource s src sp) (get_type c) ((get_num c).getD 0)
  have h2 := allWF_removeSource s src sp h
  have h3 : allWF (applyAction s (.score c src sp)) = allWF (removeSource s src sp) :=
    allWF_fields _ _ hb hd
  rw [h3]
  exact h2

theorem allWF_apply_collect_color (s : GameState) (k : Char) (h : allWF s = true) :
    allWF (applyAction s (.collect (.color k))) = true := by
  obtain ⟨hb, hd, -⟩ := applyAction_collect_color_fields s k
  obtain ⟨hbuf, hdeck⟩ := allWF_split s h
  unfold allWF
  rw [hb, hd, Bool.and_eq_true]
  constructor
  · exact wf_sub s.buffer_area _ (List.filter_subset' s.buffer_area) hbuf
  · rw [List.all_eq_true]
    intro col2 hcol2
    rw [List.mem_map] at hcol2
    obtain ⟨col, hcol, rfl⟩ := hcol2
    have hcw : col.all wfCardB = true := by
      rw [List.all_eq_true] at hdeck
      simpa using hdeck col hcol
    show (if col.getLast? == some (colorCard k) then popTop col else col).all wfCardB = true
    by_cases hc : (col.getLast? == some (colorCard k)) = true
    · rw [if_pos hc]
      exact wf_sub col _ (List.dropLast_subset col) hcw
    · rw [if_neg hc]
      exact hcw

theorem allWF_apply_flower (s : GameState) (h : allWF s = true) :
    allWF (applyAction s (.collect .flower)) = true := by
  obtain ⟨hbuf, hdeck⟩ := allWF_split s h
  show (s.buffer_area.all wfCardB
      && (popFlower s.deck).all (fun col => col.all wfCardB)) = true
  rw [Bool.and_eq_true]
  refine ⟨hbuf, ?_⟩
  unfold popFlower
  cases s.deck.findIdx? (fun col => col.getLast? == some flowerCard) with
  | none => exact hdeck
  | some i => exact all_wf_modify s.deck i hdeck

/-! ### The success pipeline for important actions -/

theorem invB_le (s : GameState) (h : invB s = true) (x : List Char) (hx : x ∈ s.history) :
    muC (canonical s) ≤ muC x := by
  unfold invB at h
  rw [List.all_eq_true] at h
  simpa using h x hx

/-- The core of `take_action` succeeds on any strictly measure-decreasing,
well-formedness-preserving, unlocked action from a good state, and the
result is again a good state with the mutated state's canonical string. -/
theorem take_action_core_good (s : GameState) (a : Action)
    (hIa : is_action_locked s a = false) (hG : GoodState s)
    (hWFa : allWF (applyAction s a) = true)
    (hdec : muC (canonical (applyAction s a)) < muC (canonical s)) :
    ∃ t, take_action_core s a = some t ∧ GoodState t
      ∧ canonical t = canonical (applyAction s a) := by
  obtain ⟨e1, e2, e3, e4⟩ := applyAction_carry s a
  obtain ⟨hcan2, hhist2, hsol2⟩ := post_lock_fields (applyAction s a) a
  have hmem : canonical (applyAction s a) ∉ (applyAction s a).history := by
    rw [e1]
    intro hin
    have := invB_le s hG.2 _ hin
    omega
  have hsome : take_action_core s a
      = some { unlock_state (lock_state (applyAction s a) a) a with
               history := canonical (unlock_state (lock_state (applyAction s a) a) a)
                 :: (unlock_state (lock_state (applyAction s a) a) a).history,
               solution := (unlock_state (lock_state (applyAction s a) a) a).solution ++ [a] } := by
    unfold take_action_core
    rw [hIa]
    simp only [Bool.false_eq_true, if_false]
    exact if_neg hmem
  obtain ⟨x, y, hls⟩ := lock_state_spec (applyAction s a) a
  obtain ⟨x2, y2, hus⟩ := unlock_state_spec (lock_state (applyAction s a) a) a
  have hbuf2 : (unlock_state (lock_state (applyAction s a) a) a).buffer_area
      = (applyAction s a).buffer_area := by rw [hus, hls]
  have hdeck2 : (unlock_state (lock_state (applyAction s a) a) a).deck
      = (applyAction s a).deck := by rw [hus, hls]
  refine ⟨_, hsome, ⟨?_, ?_⟩, hcan2⟩
  · have hfe : allWF { unlock_state (lock_state (applyAction s a) a) a with
        history := canonical (unlock_state (lock_state (applyAction s a) a) a)
          :: (unlock_state (lock_state (applyAction s a) a) a).history,
        solution := (unlock_state (lock_state (applyAction s a) a) a).solution ++ [a] }
        = allWF (applyAction s a) := allWF_fields _ _ hbuf2 hdeck2
    rw [hfe]
    exact hWFa
  · unfold invB
    rw [List.all_eq_true]
    intro y2 hy2
    simp only [decide_eq_true_eq]
    have hhT : ({ unlock_state (lock_state (applyAction s a) a) a with
        history := canonical (unlock_state (lock_state (applyAction s a) a) a)
          :: (unlock_state (lock_state (applyAction s a) a) a).history,
        solution := (unlock_state (lock_state (applyAction s a) a) a).solution
          ++ [a] } : GameState).history
        = canonical (applyAction s a) :: s.history := by
      show canonical (unlock_state (lock_state (applyAction s a) a) a)
          :: (unlock_state (lock_state (applyAction s a) a) a).history
          = canonical (applyAction s a) :: s.history
      rw [hcan2, hhist2, e1]
    rw [hhT] at hy2
    have hcT : canonical { unlock_state (lock_state (applyAction s a) a) a with
        history := canonical (unlock_state (lock_state (applyAction s a) a) a)
          :: (unlock_state (lock_state (applyAction s a) a) a).history,
        solution := (unlock_state (lock_state (applyAction s a) a) a).solution
          ++ [a] } = canonical (applyAction s a) := hcan2
    rw [hcT]
    rcases List.mem_cons.mp hy2 with rfl | hmem2
    · exact Nat.le_refl _
    · have := invB_le s hG.2 y2 hmem2
      omega

/-- The target card of the cascade's scoring step is always well-formed:
its kind is `'r'`, `'g'` or `'b'`. -/
theorem minGoalTarget_wf (t : GameState) : wfCardB (minGoalTarget t) = true := by
  unfold minGoalTarget
  simp only [List.foldl_cons, List.foldl_nil]
  split_ifs <;> rfl

/-- The cascade's scoring loop terminates successfully from any good state,
given fuel above the state's measure. -/
theorem auto_loop_good (fuel : Nat) : ∀ t : GameState, GoodState t →
    muC (canonical t) < fuel → (auto_loop fuel t).isSome = true := by
  induction fuel with
  | zero =>
    intro t _ hf
    exact absurd hf (by omega)
  | succ n ih =>
    intro t hG hf
    show (match auto_put_to_goal t with
          | none => some t
          | some none => none
          | some (some t2) => auto_loop n t2).isSome = true
    cases hap : auto_put_to_goal t with
    | none => rfl
    | some o =>
      have hap2 := hap
      simp only [auto_put_to_goal] at hap2
      cases hidx : t.deck.findIdx? (fun col => col.getLast? == some (minGoalTarget t)) with
      | none =>
        rw [hidx] at hap2
        exact Option.noConfusion hap2
      | some i =>
        rw [hidx] at hap2
        have hcore : take_action_core t (.score (minGoalTarget t) .deck i) = o :=
          Option.some.inj hap2
        obtain ⟨hlt, hp, -⟩ := List.findIdx?_eq_some_iff_getElem.mp hidx
        have htop : (t.deck.get ⟨i, hlt⟩).getLast? = some (minGoalTarget t) := by
          simpa using hp
        have hsrc : sourceTop t .deck i = some (minGoalTarget t) := by
          unfold sourceTop
          rw [List.getD_eq_getElem?_getD, List.getElem?_eq_getElem hlt]
          simpa using htop
        have hdec := muC_apply_score t (minGoalTarget t) .deck i (minGoalTarget_wf t) hsrc
        have hwfa := allWF_apply_score t (minGoalTarget t) .deck i hG.1
        obtain ⟨u, hu, hGu, hcanu⟩ :=
          take_action_core_good t (.score (minGoalTarget t) .deck i) rfl hG hwfa (by omega)
        have ho : o = some u := by rw [← hcore, hu]
        rw [ho]
        exact ih u hGu (by rw [hcanu]; omega)

/-- The whole cascade terminates successfully from any good state,
given fuel above the state's measure. -/
theorem auto_proceed_good (fuel : Nat) (t : GameState) (hG : GoodState t)
    (hf : muC (canonical t) < fuel) : (auto_proceed fuel t).isSome = true := by
  unfold auto_proceed
  by_cases hc : (t.flower_in_deck && flowerTop t) = true
  · rw [if_pos hc]
    rw [Bool.and_eq_true] at hc
    have hdec := muC_apply_flower t hc.1 hc.2
    have hwfa := allWF_apply_flower t hG.1
    obtain ⟨u, hu, hGu, hcanu⟩ :=
      take_action_core_good t (.collect .flower) rfl hG hwfa (by omega)
    rw [hu]
    exact auto_loop_good fuel u hGu (by rw [hcanu]; omega)
  · rw [if_neg hc]
    exact auto_loop_good fuel t hG hf

/-- `take_action` with the cascade enabled succeeds on any strictly
measure-decreasing, well-formedness-preserving, unlocked action from a
good state, given fuel at least the state's measure. -/
theorem take_action_some (s : GameState) (a : Action) (fuel : Nat)
    (hIa : is_action_locked s a = false) (hG : GoodState s)
    (hWFa : allWF (applyAction s a) = true)
    (hdec : muC (canonical (applyAction s a)) < muC (canonical s))
    (hf : muC (canonical s) ≤ fuel) :
    (take_action s a true fuel).isSome = true := by
  obtain ⟨t, ht, hGt, hcant⟩ := take_action_core_good s a hIa hG hWFa hdec
  unfold take_action
  rw [ht]
  show (if true = true then auto_proceed fuel t else some t).isSome = true
  rw [if_pos rfl]
  exact auto_proceed_good fuel t hGt (by rw [hcant]; omega)

/-- The important list of `get_successors` on a non-goal state, spelled
out. -/
theorem get_successors_fst (s : GameState) (fuel : Nat) (h : is_goal_state s = false) :
    (get_successors s fuel).1 =
      ((['r', 'g', 'b'].map (fun k => try_collect_all_collectables s k fuel)).flatten)
      ++ ((s.deck.enum.map (fun p =>
          match p.2.getLast? with
          | none => []
          | some card =>
              if scoreCond s card then [take_action s (.score card .deck p.1) true fuel]
              else [])).flatten)
      ++ ((s.buffer_area.enum.map (fun p =>
          if scoreCond s p.2 then [take_action s (.score p.2 .buffer p.1) true fuel]
          else [])).flatten) := by
  unfold get_successors
  rw [h]
  rfl
/-- C10: on a reachable (good) non-goal state, every Score or Collect
candidate that `get_successors` puts into its important list is an actual
successor: `take_action` never returns `None` for these actions — they are
never locked, the strict canonical-measure decrease (scoring raises a
foundation, collecting removes cards) keeps the new hash out of the
running visited history, and the subsequent cascade also succeeds — so the
important list, although never filtered for `None`, contains only actual
successor states. -/
theorem important_successors_all_some (s : GameState) (fuel : Nat)
    (hG : GoodState s) (hf : muC (canonical s) ≤ fuel) :
    ∀ x ∈ (get_successors s fuel).1, x.isSome = true := by
  intro x hx
  by_cases hg : is_goal_state s = true
  · have he : (get_successors s fuel).1 = [] := by
      unfold get_successors
      rw [hg]
      rfl
    rw [he] at hx
    exact absurd hx (List.not_mem_nil x)
  · have hg2 : is_goal_state s = false := by
      cases hgs : is_goal_state s
      · rfl
      · exact absurd hgs hg
    rw [get_successors_fst s fuel hg2] at hx
    rw [List.mem_append] at hx
    rcases hx with hx | hx
    · rw [List.mem_append] at hx
      rcases hx with hx | hx
      · rw [List.mem_flatten] at hx
        obtain ⟨lst, hlst, hxl⟩ := hx
        rw [List.mem_map] at hlst
        obtain ⟨k, hk, rfl⟩ := hlst
        unfold try_collect_all_collectables at hxl
        by_cases hcond : tryCollectCond s k = true
        · rw [if_pos hcond] at hxl
          rw [List.mem_singleton] at hxl
          subst hxl
          have hkw : muC (cardStr (colorCard k)) = 2 := by
            have hk2 : k = 'r' ∨ k = 'g' ∨ k = 'b' := by simpa using hk
            rcases hk2 with rfl | rfl | rfl <;> rfl
          have hcnt : s.deck.countP (fun col => col.getLast? == some (colorCard k))
              + s.buffer_area.count (colorCard k) = 4 := by
            unfold tryCollectCond at hcond
            rw [Bool.and_eq_true, Bool.and_eq_true] at hcond
            simpa using hcond.2
          have hdec := muC_apply_collect_color s k hkw hcnt
          exact take_action_some s (.collect (.color k)) fuel rfl hG
            (allWF_apply_collect_color s k hG.1) (by omega) hf
        · rw [if_neg hcond] at hxl
          exact absurd hxl (List.not_mem_nil x)
      · rw [List.mem_flatten] at hx
        obtain ⟨lst, hlst, hxl⟩ := hx
        rw [List.mem_map] at hlst
        obtain ⟨p, hp, rfl⟩ := hlst
        obtain ⟨i, col⟩ := p
        have hxl2 : x ∈ (match col.getLast? with
            | none => ([] : List (Option GameState))
            | some card =>
                if scoreCond s card then [take_action s (.score card .deck i) true fuel]
                else []) := hxl
        cases hgl : col.getLast? with
        | none =>
          rw [hgl] at hxl2
          exact absurd hxl2 (List.not_mem_nil x)
        | some card =>
          rw [hgl] at hxl2
          have hxl3 : x ∈ (if scoreCond s card then
              [take_action s (.score card .deck i) true fuel] else []) := hxl2
          by_cases hsc : scoreCond s card = true
          · rw [if_pos hsc] at hxl3
            rw [List.mem_singleton] at hxl3
            subst hxl3
            have henum : s.deck[i]? = some col := List.mk_mem_enum_iff_getElem?.mp hp
            have hsrc : sourceTop s .deck i = some card := by
              unfold sourceTop
              rw [List.getD_eq_getElem?_getD, henum]
              exact hgl
            have hcol : col ∈ s.deck := List.getElem?_mem henum
            have hcw : col.all wfCardB = true := by
              have hdk := (allWF_split s hG.1).2
              rw [List.all_eq_true] at hdk
              simpa using hdk col hcol
            have hcard : card ∈ col := by
              rw [← getLast?_decomp col card hgl]
              exact List.mem_append_right _ (List.mem_singleton.mpr rfl)
            have hwf : wfCardB card = true := by
              rw [List.all_eq_true] at hcw
              simpa using hcw card hcard
            have hdec := muC_apply_score s card .deck i hwf hsrc
            exact take_action_some s (.score card .deck i) fuel rfl hG
              (allWF_apply_score s card .deck i hG.1) (by omega) hf
          · rw [if_neg hsc] at hxl3
            exact absurd hxl3 (List.not_mem_nil x)
    · rw [List.mem_flatten] at hx
      obtain ⟨lst, hlst, hxl⟩ := hx
      rw [List.mem_map] at hlst
      obtain ⟨p, hp, rfl⟩ := hlst
      obtain ⟨i, card⟩ := p
      have hxl2 : x ∈ (if scoreCond s card then
          [take_action s (.score card .buffer i) true fuel] else []) := hxl
      by_cases hsc : scoreCond s card = true
      · rw [if_pos hsc] at hxl2
        rw [List.mem_singleton] at hxl2
        subst hxl2
        have henum : s.buffer_area[i]? = some card := List.mk_mem_enum_iff_getElem?.mp hp
        have hsrc : sourceTop s .buffer i = some card := henum
        have hcard : card ∈ s.buffer_area := List.getElem?_mem henum
        have hwf : wfCardB card = true := by
          have hbw := (allWF_split s hG.1).1
          rw [List.all_eq_true] at hbw
          simpa using hbw card hcard
        have hdec := muC_apply_score s card .buffer i hwf hsrc
        exact take_action_some s (.score card .buffer i) fuel rfl hG
          (allWF_apply_score s card .buffer i hG.1) (by omega) hf
      · rw [if_neg hsc] at hxl2
        exact absurd hxl2 (List.not_mem_nil x)

/-- The C10 theorem at a concrete good state: the scoring of the exposed
`b9` is in the important list, and it is an actual successor. -/
theorem important_successors_all_some_witness :
    (take_action searchState (.score ⟨'b', (some 9)⟩ .deck 0) true 100).isSome = true :=
  important_successors_all_some searchState 100 ⟨by decide, by decide⟩ (by decide)
    (take_action searchState (.score ⟨'b', (some 9)⟩ .deck 0) true 100) (by decide)

end Solitaire
